import Mathlib

/-!
# go-iiif-vips: the derivative orchestrator and the batch runner

A shallow embedding of

* `process/parallel.go` : `ParallelProcessURIWithInstructionSet`
* `tools/process.go`    : `ProcessMany`, `report_processing`
* `cache/cache.go`      : `NewCacheFromConfig`, `NewDerivativesCacheFromConfig`

Collaborators that live outside these files (driver, processor, URI package,
palette service, JSON encoder, cache back ends) are records of functions.
Go maps are finite functions with single-key assignment. Goroutines and the
two unbuffered channels are a transition system whose scheduler choices are
explicit.
-/

namespace GoIIIF

/-! ## Go maps -/

/-- A Go map, observed through lookup. -/
abbrev GoMap (K V : Type) := K → Option V

/-- The result of `make(map[K]V)`. -/
def GoMap.empty {K V : Type} : GoMap K V := fun _ => none

/-- The assignment `m[k] = v`. -/
def GoMap.set {K V : Type} [DecidableEq K] (m : GoMap K V) (k : K) (v : V) : GoMap K V :=
  fun x => if x = k then some v else m x

/-! ## Data model -/

/-- The type `Label` of the process package (declared outside the files at hand as a
string type; `fmt.Sprintf("%s", label)` is the label's text). -/
abbrev Label := String

/-- One derivative's parameters (`IIIFInstructions`). -/
structure IIIFInstructions where
  Region : String
  Size : String
  Rotation : String
  Quality : String
  Format : String
deriving DecidableEq, Repr

/-- The type `IIIFInstructionSet`, a Go map from labels to instructions: the entries in
one iteration order, keys pairwise distinct. -/
structure IIIFInstructionSet where
  entries : List (Label × IIIFInstructions)
  nodup : (entries.map Prod.fst).Nodup

/-- The number of keys, `len(instruction_set)`. -/
def IIIFInstructionSet.len (s : IIIFInstructionSet) : Nat := s.entries.length

/-- The type `url.Values` (`map[string][]string`). -/
abbrev Values := GoMap String (List String)

/-- The method `url.Values.Set`: `v[key] = []string{value}`. -/
def Values.Set (v : Values) (key value : String) : Values := GoMap.set v key [value]

/-- Pixel dimensions, with the accessors `Width()` and `Height()`. -/
structure Dimensions where
  Width : Int
  Height : Int
deriving DecidableEq, Repr

/-- An image handle: what its method `Dimensions()` returns. -/
structure Image where
  Dimensions : Except String Dimensions

/-- The interface `iiifuri.URI`: what its methods return. -/
structure URI where
  Driver : String
  Origin : String
  Target : Values → Except String String
  Str : String

/-- A palette service: what its method `Value()` returns (a colour list, kept abstract). -/
structure PaletteService where
  Value : String

/-- The type `iiifconfig.CacheConfig`: the name, and the other settings kept abstract. -/
structure CacheConfig where
  Name : String
  Settings : String

/-- The fields of `iiifconfig.Config` the code reads. -/
structure Config where
  ServicesEnable : List String
  Palette : String
  ImagesCache : CacheConfig
  DerivativesCache : CacheConfig

/-- The interface `iiifdriver.Driver`. -/
structure Driver where
  NewImageFromConfig : Config → String → Except String Image

/-- The interface `Processor`. -/
structure Processor where
  ProcessURIWithInstructions : URI → Label → IIIFInstructions → Except String (URI × Image)

/-- Package-level functions the orchestrator calls that are defined in other files. -/
structure Lib where
  EnsureInstructions : IIIFInstructions → IIIFInstructions
  NewPaletteService : String → Image → Except String PaletteService
  NewRewriteURIString : String → String
  NewURI : String → Except String URI

/-- The arguments of one call of `ParallelProcessURIWithInstructionSet`, with the library. -/
structure Ctx where
  lib : Lib
  cfg : Config
  driver : Driver
  pr : Processor
  instruction_set : IIIFInstructionSet
  u : URI

/-- A value stored in the `map[string]interface{}` manifest. -/
inductive Value where
  | palette (v : String)
  | uris (m : GoMap Label String)
  | dimensions (m : GoMap Label (List Int))

/-- A collaborator call made by a task, with its arguments. -/
inductive Call where
  | NewImageFromConfig (origin : String)
  | NewPaletteService (palette : String)
  | Target (opts : Values)
  | NewRewriteURIString (s : String)
  | NewURI (s : String)
  | ProcessURIWithInstructions (uri : URI) (label : Label) (i : IIIFInstructions)
  | Dimensions

/-- What a task writes to the shared maps. -/
inductive Effect where
  | nothing
  | palette (v : String)
  | derivative (label : Label) (uri : String) (dims : List Int)

/-- One run of a goroutine body up to its deferred `done_ch <- true`: the collaborator
calls in order, the error it sends on `err_ch` (if any) and its write. -/
structure TaskRun where
  calls : List Call
  err : Option String
  effect : Effect

/-! ## The goroutine bodies of `ParallelProcessURIWithInstructionSet` -/

/-- The loop `for _, service_name := range cfg.Profile.Services.Enable` of the palette
goroutine, started with the calls made so far. -/
def paletteLoop (c : Ctx) (im : Image) (calls : List Call) : List String → TaskRun
  | [] => ⟨calls, none, Effect.nothing⟩
  | service_name :: rest =>
    if service_name = "palette" then
      match c.lib.NewPaletteService c.cfg.Palette im with
      | .error err =>
        ⟨calls ++ [Call.NewPaletteService c.cfg.Palette],
          some ("failed to derive palette for " ++ c.u.Str ++ " : " ++ err), Effect.nothing⟩
      | .ok s =>
        ⟨calls ++ [Call.NewPaletteService c.cfg.Palette], none, Effect.palette s.Value⟩
    else paletteLoop c im calls rest

/-- The palette goroutine. -/
def paletteTask (c : Ctx) : TaskRun :=
  let origin := c.u.Origin
  match c.driver.NewImageFromConfig c.cfg origin with
  | .error err =>
    ⟨[Call.NewImageFromConfig origin],
      some ("failed to derive palette for " ++ c.u.Str ++ " : " ++ err), Effect.nothing⟩
  | .ok im => paletteLoop c im [Call.NewImageFromConfig origin] c.cfg.ServicesEnable

/-- The option set built in the `"idsecret"` branch. -/
def targetOpts (label : Label) (i : IIIFInstructions) : Values :=
  let str_label : String := label
  let opts : Values := GoMap.empty
  let opts := opts.Set "label" str_label
  let opts := opts.Set "format" i.Format
  if str_label = "o" then opts.Set "original" "1" else opts

/-- The tail of a derivative goroutine from `pr.ProcessURIWithInstructions` on. -/
def processStep (c : Ctx) (label : Label) (i : IIIFInstructions) (calls : List Call)
    (process_uri : URI) : TaskRun :=
  match c.pr.ProcessURIWithInstructions process_uri label i with
  | .error err =>
    ⟨calls ++ [Call.ProcessURIWithInstructions process_uri label i],
      some ("failed to process " ++ c.u.Str ++ " (" ++ label ++ ") : " ++ err), Effect.nothing⟩
  | .ok (new_uri, im) =>
    match im.Dimensions with
    | .error err =>
      ⟨calls ++ [Call.ProcessURIWithInstructions process_uri label i, Call.Dimensions],
        some ("failed to process " ++ c.u.Str ++ " (" ++ label ++ ") : " ++ err), Effect.nothing⟩
    | .ok dims =>
      ⟨calls ++ [Call.ProcessURIWithInstructions process_uri label i, Call.Dimensions],
        none, Effect.derivative label new_uri.Str [dims.Width, dims.Height]⟩

/-- The `switch u.Driver()` of a derivative goroutine: the calls it makes, and either the
URI to process or the error the goroutine sends. -/
def rewriteURI (c : Ctx) (label : Label) (i : IIIFInstructions) :
    List Call × Except String URI :=
  if c.u.Driver = "idsecret" then
    let opts := targetOpts label i
    match c.u.Target opts with
    | .error err =>
      ([Call.Target opts],
        .error ("failed to derive target " ++ c.u.Str ++ " (" ++ label ++ ") : " ++ err))
    | .ok target_str =>
      let origin := c.u.Origin
      let rw_str := origin ++ "?target=" ++ target_str
      let rw_str' := c.lib.NewRewriteURIString rw_str
      match c.lib.NewURI rw_str' with
      | .error err =>
        ([Call.Target opts, Call.NewRewriteURIString rw_str, Call.NewURI rw_str'],
          .error ("failed to generate rewrite URL " ++ c.u.Str ++ " (" ++ label ++ ") : " ++ err))
      | .ok rw_uri =>
        ([Call.Target opts, Call.NewRewriteURIString rw_str, Call.NewURI rw_str'], .ok rw_uri)
  else ([], .ok c.u)

/-- A derivative goroutine `go func(u, label, i)`; `i` is already default-filled. -/
def derivativeTask (c : Ctx) (label : Label) (i : IIIFInstructions) : TaskRun :=
  match rewriteURI c label i with
  | (calls, .error msg) => ⟨calls, some msg, Effect.nothing⟩
  | (calls, .ok process_uri) => processStep c label i calls process_uri

/-- The body of task `k`: task `0` is the palette goroutine, task `j + 1` the goroutine
spawned for the `j`-th entry of the instruction set, after `i = EnsureInstructions(i)`. -/
def taskRun (c : Ctx) : Nat → Option TaskRun
  | 0 => some (paletteTask c)
  | j + 1 =>
    (c.instruction_set.entries[j]?).map
      (fun e => derivativeTask c e.1 (c.lib.EnsureInstructions e.2))

/-! ## Goroutines, channels and the wait loop as a transition system -/

/-- Where a goroutine stands. Both channels are unbuffered, so a send blocks until the
wait loop receives it. -/
inductive Phase where
  /-- Spawned; the body has not run yet. -/
  | ready
  /-- Blocked in `err_ch <- errors.New(msg)`. -/
  | sendErr (msg : String)
  /-- Blocked in the deferred `done_ch <- true`. -/
  | sendDone
  /-- The deferred send was received; the goroutine is over. -/
  | finished
deriving DecidableEq, Repr

/-- A receive performed by the `select` of the wait loop. -/
inductive Event where
  /-- The case `e := <-err_ch`, followed by `log.Println(e)`; `task` is the sender. -/
  | err (task : Nat) (msg : String)
  /-- The case `<-done_ch`, followed by `remaining -= 1`; `task` is the sender. -/
  | done (task : Nat)
deriving DecidableEq, Repr

/-- The sender of a received value. -/
def Event.task : Event → Nat
  | Event.err k _ => k
  | Event.done k => k

/-- The variables of one call, the phases of its `len(instruction_set) + 1` goroutines
(task `0` is the palette goroutine), the receives of the wait loop so far, and the
returned pair once the function has returned. -/
structure State where
  phases : List Phase
  remaining : Nat
  results : GoMap String Value
  uris : GoMap Label String
  dimensions : GoMap Label (List Int)
  received : List Event
  returned : Option (GoMap String Value × Option String)

/-- What the scheduler may pick next. -/
inductive Choice where
  /-- Goroutine `k` runs its body up to its first channel send. -/
  | run (k : Nat)
  /-- One iteration of the wait loop whose `select` receives the send goroutine `k` is
  blocked in. -/
  | recv (k : Nat)
  /-- One iteration of the wait loop whose `select` takes `default`. -/
  | idle
  /-- The loop test `remaining > 0` fails; the function stores the maps and returns. -/
  | ret
deriving DecidableEq, Repr

/-- The state after the goroutines are spawned, before the first loop test. -/
def init (c : Ctx) : State where
  phases := List.replicate (c.instruction_set.len + 1) Phase.ready
  remaining := c.instruction_set.len + 1
  results := GoMap.empty
  uris := GoMap.empty
  dimensions := GoMap.empty
  received := []
  returned := none

/-- The write of a goroutine body. The derivative write happens between `mu.Lock()` and
`mu.Unlock()`; the palette write is the only access to `results` before the loop ends. -/
def applyEffect (s : State) : Effect → State
  | Effect.nothing => s
  | Effect.palette v => { s with results := s.results.set "palette" (Value.palette v) }
  | Effect.derivative label uri dims =>
    { s with uris := s.uris.set label uri, dimensions := s.dimensions.set label dims }

/-- The phase of a goroutine whose body has just run. -/
def afterBody (r : TaskRun) : Phase :=
  match r.err with
  | some msg => Phase.sendErr msg
  | none => Phase.sendDone

/-- A goroutine blocked in a channel send. -/
def Phase.blocked : Phase → Bool
  | Phase.sendErr _ => true
  | Phase.sendDone => true
  | _ => false

/-- One scheduler step, `none` when the choice is not enabled. The `select` takes
`default` only when no send is pending. -/
def step? (c : Ctx) (s : State) : Choice → Option State
  | Choice.run k =>
    match s.phases[k]?, taskRun c k with
    | some Phase.ready, some r =>
      some { applyEffect s r.effect with phases := s.phases.set k (afterBody r) }
    | _, _ => none
  | Choice.recv k =>
    if s.returned.isSome || s.remaining == 0 then none
    else
      match s.phases[k]? with
      | some (Phase.sendErr msg) =>
        some { s with phases := s.phases.set k Phase.sendDone,
                      received := s.received ++ [Event.err k msg] }
      | some Phase.sendDone =>
        some { s with phases := s.phases.set k Phase.finished,
                      remaining := s.remaining - 1,
                      received := s.received ++ [Event.done k] }
      | _ => none
  | Choice.idle =>
    if s.returned.isSome || s.remaining == 0 then none
    else if s.phases.any Phase.blocked then none
    else some s
  | Choice.ret =>
    if s.returned.isSome || s.remaining != 0 then none
    else
      let results := (s.results.set "uris" (Value.uris s.uris)).set "dimensions"
        (Value.dimensions s.dimensions)
      some { s with results := results, returned := some (results, none) }

/-- Run a schedule; a choice that is not enabled is skipped. -/
def exec (c : Ctx) : State → List Choice → State
  | s, [] => s
  | s, ch :: rest => exec c ((step? c s ch).getD s) rest

/-- The message of an error receive. -/
def Event.msg? : Event → Option String
  | Event.err _ msg => some msg
  | Event.done _ => none

/-- The lines written by `log.Println(e)`, in order. -/
def logged (s : State) : List String := s.received.filterMap Event.msg?

/-- The number of completion signals received. -/
def doneCount (s : State) : Nat :=
  s.received.countP (fun e => match e with
    | Event.done _ => true
    | Event.err _ _ => false)

/-! ## The value of a call -/

/-- The derived-URI string a body writes, if it writes one. -/
def Effect.uri? : Effect → Option String
  | Effect.derivative _ uri _ => some uri
  | _ => none

/-- The dimension list a body writes, if it writes one. -/
def Effect.dims? : Effect → Option (List Int)
  | Effect.derivative _ _ dims => some dims
  | _ => none

/-- The palette value a body writes, if it writes one. -/
def Effect.palette? : Effect → Option Value
  | Effect.palette v => some (Value.palette v)
  | _ => none

/-- The effect of the goroutine spawned for an entry of the instruction set. -/
def entryEffect (c : Ctx) (e : Label × IIIFInstructions) : Effect :=
  (derivativeTask c e.1 (c.lib.EnsureInstructions e.2)).effect

/-- The map `uris` once every goroutine has run. -/
def finalUris (c : Ctx) : GoMap Label String := fun label =>
  (c.instruction_set.entries.find? (fun e => e.1 == label)).bind
    (fun e => (entryEffect c e).uri?)

/-- The map `dimensions` once every goroutine has run. -/
def finalDimensions (c : Ctx) : GoMap Label (List Int) := fun label =>
  (c.instruction_set.entries.find? (fun e => e.1 == label)).bind
    (fun e => (entryEffect c e).dims?)

/-- The pair `ParallelProcessURIWithInstructionSet` returns: the value of every complete
execution of the transition system (see `complete_returns`). -/
def ParallelProcessURIWithInstructionSet (c : Ctx) : GoMap String Value × Option String :=
  let results : GoMap String Value := fun key =>
    if key = "palette" then (paletteTask c).effect.palette? else none
  ((results.set "uris" (Value.uris (finalUris c))).set "dimensions"
    (Value.dimensions (finalDimensions c)), none)

/-! ## The invariant of the transition system -/

/-- A goroutine that has not yet had its completion signal received. -/
def Phase.live : Phase → Bool
  | Phase.finished => false
  | _ => true

/-- The error receive a task causes: one if its body sends an error, none otherwise. -/
def errEvents (k : Nat) (r : TaskRun) : List Event :=
  match r.err with
  | some msg => [Event.err k msg]
  | none => []

/-- The receives task `k` has caused by the time it is in a given phase. -/
def expectedEvents (k : Nat) (r : TaskRun) : Phase → List Event
  | Phase.ready => []
  | Phase.sendErr _ => []
  | Phase.sendDone => errEvents k r
  | Phase.finished => errEvents k r ++ [Event.done k]

/-- The receives caused by task `k`, in order. -/
def eventsOf (s : State) (k : Nat) : List Event :=
  s.received.filter (fun e => e.task == k)

/-- What holds in every reachable state. -/
structure Inv (c : Ctx) (s : State) : Prop where
  len : s.phases.length = c.instruction_set.len + 1
  rem : s.remaining = s.phases.countP Phase.live
  cnt : s.remaining + doneCount s = c.instruction_set.len + 1
  events : ∀ k r p, taskRun c k = some r → s.phases[k]? = some p →
    eventsOf s k = expectedEvents k r p ∧ (∀ msg, p = Phase.sendErr msg → r.err = some msg)
  bound : ∀ e ∈ s.received, e.task < c.instruction_set.len + 1
  pal : s.results "palette" =
    if s.phases[0]? = some Phase.ready then none else (paletteTask c).effect.palette?
  res : ∀ key, key ≠ "palette" → s.results key =
    if s.returned.isSome then
      (if key = "dimensions" then some (Value.dimensions s.dimensions)
       else if key = "uris" then some (Value.uris s.uris) else none)
    else none
  ret : ∀ r, s.returned = some r → r = (s.results, none) ∧ s.remaining = 0
  uri : ∀ j e, c.instruction_set.entries[j]? = some e →
    s.uris e.1 = if s.phases[j + 1]? = some Phase.ready then none else (entryEffect c e).uri?
  uriNone : ∀ label, label ∉ c.instruction_set.entries.map Prod.fst → s.uris label = none
  dim : ∀ j e, c.instruction_set.entries[j]? = some e →
    s.dimensions e.1 =
      if s.phases[j + 1]? = some Phase.ready then none else (entryEffect c e).dims?
  dimNone : ∀ label, label ∉ c.instruction_set.entries.map Prod.fst →
    s.dimensions label = none

/-- The number of scheduler steps other than `idle` still to come. -/
def Phase.weight : Phase → Nat
  | Phase.ready => 3
  | Phase.sendErr _ => 2
  | Phase.sendDone => 1
  | Phase.finished => 0

/-- The termination measure: the weights of the goroutines, plus one for the return. -/
def measure (s : State) : Nat :=
  (s.phases.map Phase.weight).sum + (if s.returned.isSome then 0 else 1)

/-! ## `path/filepath` on Unix -/

/-- The path elements between slashes. -/
def splitSlash : List Char → List (List Char)
  | [] => [[]]
  | ch :: rest =>
    if ch = '/' then [] :: splitSlash rest
    else
      match splitSlash rest with
      | [] => [[ch]]
      | w :: ws => (ch :: w) :: ws

/-- One element processed by `Clean`; the elements kept so far are held last first. An
empty element and `.` are dropped; `..` removes the element before it when that is not
itself `..`, is dropped at the root, and is kept otherwise. -/
def cleanStep (rooted : Bool) (kept : List (List Char)) (elem : List Char) :
    List (List Char) :=
  if elem = [] ∨ elem = ['.'] then kept
  else if elem = ['.', '.'] then
    match kept with
    | top :: below => if top = ['.', '.'] then elem :: kept else below
    | [] => if rooted then [] else [elem]
  else elem :: kept

/-- The elements joined by single slashes. -/
def joinSlash : List (List Char) → List Char
  | [] => []
  | [w] => w
  | w :: ws => w ++ '/' :: joinSlash ws

/-- The function `filepath.Clean` (Go standard library, Unix), on characters. -/
def cleanChars (path : List Char) : List Char :=
  let rooted := path.head? == some '/'
  let kept := (splitSlash path).foldl (cleanStep rooted) []
  let out := (if rooted then ['/'] else []) ++ joinSlash kept.reverse
  if out = [] then ['.'] else out

/-- The function `filepath.Clean`. -/
def filepathClean (path : String) : String := String.mk (cleanChars path.data)

/-- The call `filepath.Join(a, b)`: the elements from the first non-empty one on, joined
by a slash and cleaned; the empty string when both are empty. -/
def filepathJoin (a b : String) : String :=
  if a ≠ "" then filepathClean (a ++ "/" ++ b)
  else if b ≠ "" then filepathClean b
  else ""

/-! ## `cache/cache.go` -/

/-- The interface `Cache`; the report writer uses `Set` only. `Set` returns its error. -/
structure Cache where
  Set : String → String → Option String

/-- The cache constructors (defined in other files) and `strings.ToLower`. -/
structure CacheLib where
  ToLower : String → String
  NewBlobCache : CacheConfig → Except String Cache
  NewDiskCache : CacheConfig → Except String Cache
  NewMemoryCache : CacheConfig → Except String Cache
  NewS3Cache : CacheConfig → Except String Cache
  NewNullCache : CacheConfig → Except String Cache

/-- The function `NewCacheFromConfig`. -/
def NewCacheFromConfig (cl : CacheLib) (config : CacheConfig) : Except String Cache :=
  let name := cl.ToLower config.Name
  if name = "blob" then cl.NewBlobCache config
  else if name = "disk" then cl.NewDiskCache config
  else if name = "memory" then cl.NewMemoryCache config
  else if name = "s3" then cl.NewS3Cache config
  else cl.NewNullCache config

/-- The function `NewImagesCacheFromConfig`. -/
def NewImagesCacheFromConfig (cl : CacheLib) (config : Config) : Except String Cache :=
  NewCacheFromConfig cl config.ImagesCache

/-- The function `NewDerivativesCacheFromConfig`. -/
def NewDerivativesCacheFromConfig (cl : CacheLib) (config : Config) : Except String Cache :=
  NewCacheFromConfig cl config.DerivativesCache

/-! ## `tools/process.go` -/

/-- A manifest, `map[string]interface{}`. -/
abbrev Manifest := GoMap String Value

/-- The batch report, the local `results` of `ProcessMany`. -/
abbrev BatchReport := GoMap String Manifest

/-- The function `json.Marshal` at the two types it is applied to. -/
structure Json where
  MarshalManifest : Manifest → Except String String
  MarshalBatch : BatchReport → Except String String

/-- Everything `ProcessMany` reaches that is defined outside the files at hand. -/
structure Env where
  lib : Lib
  cache : CacheLib
  json : Json

/-- The type `ProcessOptions`. -/
structure ProcessOptions where
  Config : Config
  Driver : Driver
  Processor : Processor
  Instructions : IIIFInstructionSet
  Report : Bool
  ReportName : String

/-- The function `report_processing`: the `Set` call it makes, if it gets that far, and
the error it returns. -/
def report_processing (env : Env) (cfg : Config) (key : String) (rsp : Manifest) :
    Option (String × String) × Option String :=
  match NewDerivativesCacheFromConfig env.cache cfg with
  | .error err => (none, some err)
  | .ok dest_cache =>
    match env.json.MarshalManifest rsp with
    | .error err => (none, some err)
    | .ok enc_rsp => (some (key, enc_rsp), dest_cache.Set key enc_rsp)

/-- The variables of the `for` loop of `ProcessMany`, with the orchestrator calls made
(the arguments `opts.Config, opts.Driver, opts.Processor, opts.Instructions, uri` of
each, with the library) and the report goroutines spawned (the arguments `key`, `rsp` of
each), and the error of an early `return err`. -/
structure Loop where
  results : BatchReport
  calls : List Ctx
  spawned : List (String × Manifest)
  early : Option String

/-- The loop `for _, uri := range uris` of `ProcessMany`. -/
def processLoop (env : Env) (opts : ProcessOptions) : List URI → Loop → Loop
  | [], st => st
  | uri :: rest, st =>
    let origin := uri.Origin
    let call : Ctx :=
      ⟨env.lib, opts.Config, opts.Driver, opts.Processor, opts.Instructions, uri⟩
    let st := { st with calls := st.calls ++ [call] }
    match ParallelProcessURIWithInstructionSet call with
    | (_, some err) => { st with early := some err }
    | (rsp, none) =>
      let st :=
        if opts.Report then
          let key := filepathJoin origin opts.ReportName
          { st with spawned := st.spawned ++ [(key, rsp)] }
        else st
      processLoop env opts rest { st with results := st.results.set origin rsp }

/-- What one call of `ProcessMany` does: the returned error, the batch report, the line
printed, the orchestrator calls, the report goroutines spawned, and the cache writes and
log lines of these goroutines (listed in spawn order; they run concurrently). -/
structure BatchOutcome where
  err : Option String
  results : BatchReport
  stdout : Option String
  calls : List Ctx
  spawned : List (String × Manifest)
  writes : List (String × String)
  log : List String

/-- The log line of a report goroutine, if `report_processing` returned an error. -/
def reportLog (env : Env) (cfg : Config) (job : String × Manifest) : Option String :=
  (report_processing env cfg job.1 job.2).2.map
    (fun err => "Unable to write process report " ++ job.1 ++ ", " ++ err)

/-- The function `ProcessMany`. -/
def ProcessMany (env : Env) (opts : ProcessOptions) (uris : List URI) : BatchOutcome :=
  let st := processLoop env opts uris ⟨GoMap.empty, [], [], none⟩
  let writes := st.spawned.filterMap (fun job => (report_processing env opts.Config job.1 job.2).1)
  let log := st.spawned.filterMap (reportLog env opts.Config)
  match st.early with
  | some err => ⟨some err, st.results, none, st.calls, st.spawned, writes, log⟩
  | none =>
    match env.json.MarshalBatch st.results with
    | .error err => ⟨some err, st.results, none, st.calls, st.spawned, writes, log⟩
    | .ok enc_results => ⟨none, st.results, some enc_results, st.calls, st.spawned, writes, log⟩

/-! ## Notions used to state the properties -/

/-- A call of `u.Target`. -/
def Call.isTarget : Call → Bool
  | Call.Target _ => true
  | _ => false

/-- A call of `pr.ProcessURIWithInstructions`. -/
def Call.isProcess : Call → Bool
  | Call.ProcessURIWithInstructions _ _ _ => true
  | _ => false

/-- The goroutine of label `label` exists and gets through the URI rewrite, the processor
and `im.Dimensions()`; `s` is the string of the URI the processor returned and `ds` the
list of width and height. -/
def Succeeds (c : Ctx) (label : Label) (s : String) (ds : List Int) : Prop :=
  ∃ i process_uri new_uri im d,
    (label, i) ∈ c.instruction_set.entries ∧
    (rewriteURI c label (c.lib.EnsureInstructions i)).2 = Except.ok process_uri ∧
    c.pr.ProcessURIWithInstructions process_uri label (c.lib.EnsureInstructions i) =
      Except.ok (new_uri, im) ∧
    im.Dimensions = Except.ok d ∧ s = new_uri.Str ∧ ds = [d.Width, d.Height]

/-- The schedule `cs` runs the call to its return. -/
def Completes (c : Ctx) (cs : List Choice) : Prop :=
  (exec c (init c) cs).returned.isSome = true

instance (c : Ctx) (cs : List Choice) : Decidable (Completes c cs) := by
  unfold Completes
  infer_instance

/-- A path element that `Clean` keeps as it is: not empty, not `.`, not `..`. -/
def plainElem (w : List Char) : Bool :=
  !(w == []) && !(w == ['.']) && !(w == ['.', '.'])

/-- A relative path all of whose elements are kept by `Clean`. -/
def CleanRelative (path : String) : Prop := (splitSlash path.data).all plainElem = true

instance (path : String) : Decidable (CleanRelative path) := by
  unfold CleanRelative
  infer_instance

/-! ## Concrete inputs -/

/-- A plain source. -/
def exURI : URI :=
  ⟨"file", "avocado.png", fun _ => Except.error "no target", "avocado.png"⟩

/-- A source of the `"idsecret"` kind. -/
def exIdURI : URI :=
  ⟨"idsecret", "1234", fun _ => Except.ok "1234_s_o.jpg", "idsecret:///1234"⟩

/-- A library whose palette service succeeds. -/
def exLib : Lib where
  EnsureInstructions := fun i => if i.Format = "" then { i with Format := "jpg" } else i
  NewPaletteService := fun _ _ => Except.ok ⟨"[#aabbcc]"⟩
  NewRewriteURIString := fun s => "rewrite:///" ++ s
  NewURI := fun s => Except.ok ⟨"rewrite", s, fun _ => Except.error "no target", s⟩

/-- A configuration with the palette service enabled. -/
def exConfig : Config := ⟨["palette"], "", ⟨"memory", ""⟩, ⟨"memory", ""⟩⟩

/-- A driver that opens every image. -/
def exDriver : Driver := ⟨fun _ _ => Except.ok ⟨Except.ok ⟨640, 480⟩⟩⟩

/-- A processor that fails on label `"b"`. -/
def exProcessor : Processor :=
  ⟨fun u label i =>
    if label = "b" then Except.error "boom"
    else Except.ok
      (⟨u.Driver, u.Origin, u.Target, u.Origin ++ "/full/full/0/color." ++ i.Format⟩,
        ⟨Except.ok ⟨640, 480⟩⟩)⟩

/-- Two instructions, labels `"o"` and `"b"`. -/
def exInstructions : IIIFInstructionSet :=
  ⟨[("o", ⟨"full", "full", "0", "color", ""⟩), ("b", ⟨"full", "!2048,1536", "0", "color", "png"⟩)],
    by decide⟩

/-- A call on the plain source. -/
def exCtx : Ctx := ⟨exLib, exConfig, exDriver, exProcessor, exInstructions, exURI⟩

/-- A call on the `"idsecret"` source. -/
def exIdCtx : Ctx := ⟨exLib, exConfig, exDriver, exProcessor, exInstructions, exIdURI⟩

/-- A schedule that runs the call to its return. -/
def exSchedule : List Choice :=
  [Choice.idle, Choice.run 2, Choice.run 0, Choice.recv 2, Choice.run 1, Choice.recv 1,
    Choice.recv 0, Choice.recv 2, Choice.ret]

/-- Cache constructors that all succeed, with a `Set` that fails on one key. -/
def exCacheLib : CacheLib where
  ToLower := fun s => String.mk (s.data.map Char.toLower)
  NewBlobCache := fun _ => Except.error "no blob"
  NewDiskCache := fun _ => Except.error "no disk"
  NewMemoryCache := fun _ =>
    Except.ok ⟨fun key _ => if key = "avocado.png/process.json" then some "full" else none⟩
  NewS3Cache := fun _ => Except.error "no s3"
  NewNullCache := fun _ => Except.ok ⟨fun _ _ => none⟩

/-- An encoder that succeeds. -/
def exJson : Json := ⟨fun _ => Except.ok "manifest-json", fun _ => Except.ok "batch-json"⟩

/-- The collaborators of a batch. -/
def exEnv : Env := ⟨exLib, exCacheLib, exJson⟩

/-- Options with reporting on and the default report name. -/
def exOpts : ProcessOptions :=
  ⟨exConfig, exDriver, exProcessor, exInstructions, true, "process.json"⟩

/-- Options with reporting on and a report name given with a leading `./`. -/
def exOptsDot : ProcessOptions :=
  ⟨exConfig, exDriver, exProcessor, exInstructions, true, "./process.json"⟩

/-- A second plain source. -/
def exURI2 : URI :=
  ⟨"file", "banana.png", fun _ => Except.error "no target", "banana.png"⟩

/-! ## The processor as Go's interface has it -/

/-- The interface `Processor` without the convention that a nil error comes with usable
results: the URI and the image handle returned with no error may be nil (`none`). -/
structure RawProcessor where
  ProcessURIWithInstructions :
    URI → Label → IIIFInstructions → Except String (Option URI × Option Image)

/-- A processor of the record `Processor` as a `RawProcessor`: with no error its URI and
its image handle are never nil. -/
def Processor.toRaw (pr : Processor) : RawProcessor :=
  ⟨fun u label i =>
    match pr.ProcessURIWithInstructions u label i with
    | .error err => .error err
    | .ok (new_uri, im) => .ok (some new_uri, some im)⟩

/-- How a goroutine body ends: it runs to its end or to a `return`, or it panics on a
nil handle. The deferred `done_ch <- true` runs in both cases; after a panic, which
nothing recovers, the process then ends and the call does not return. -/
inductive BodyEnd where
  | done (r : TaskRun)
  | panic (calls : List Call)

/-- The tail of a derivative goroutine from `pr.ProcessURIWithInstructions` on, for a
processor that may return nil handles: `im.Dimensions()` panics on a nil image and
`new_uri.String()` on a nil URI. -/
def processStepRaw (c : Ctx) (raw : RawProcessor) (label : Label) (i : IIIFInstructions)
    (calls : List Call) (process_uri : URI) : BodyEnd :=
  match raw.ProcessURIWithInstructions process_uri label i with
  | .error err =>
    BodyEnd.done ⟨calls ++ [Call.ProcessURIWithInstructions process_uri label i],
      some ("failed to process " ++ c.u.Str ++ " (" ++ label ++ ") : " ++ err), Effect.nothing⟩
  | .ok (_, none) =>
    BodyEnd.panic (calls ++ [Call.ProcessURIWithInstructions process_uri label i])
  | .ok (new_uri, some im) =>
    match im.Dimensions with
    | .error err =>
      BodyEnd.done
        ⟨calls ++ [Call.ProcessURIWithInstructions process_uri label i, Call.Dimensions],
          some ("failed to process " ++ c.u.Str ++ " (" ++ label ++ ") : " ++ err),
          Effect.nothing⟩
    | .ok dims =>
      match new_uri with
      | none =>
        BodyEnd.panic
          (calls ++ [Call.ProcessURIWithInstructions process_uri label i, Call.Dimensions])
      | some new_uri =>
        BodyEnd.done
          ⟨calls ++ [Call.ProcessURIWithInstructions process_uri label i, Call.Dimensions],
            none, Effect.derivative label new_uri.Str [dims.Width, dims.Height]⟩

/-- A processor that returns a URI and a nil image, with no error. -/
def exNilProcessor : RawProcessor :=
  ⟨fun u _ _ => Except.ok (some u, none)⟩

/-! ## Lemmas -/

theorem GoMap.set_same {K V : Type} [DecidableEq K] (m : GoMap K V) (k : K) (v : V) :
    m.set k v k = some v := by
  simp [GoMap.set]

theorem GoMap.set_other {K V : Type} [DecidableEq K] (m : GoMap K V) (k x : K) (v : V)
    (h : x ≠ k) : m.set k v x = m x := by
  simp [GoMap.set, h]

theorem live_afterBody (r : TaskRun) : (afterBody r).live = true := by
  unfold afterBody
  cases r.err <;> rfl

theorem afterBody_ne_ready (r : TaskRun) : afterBody r ≠ Phase.ready := by
  unfold afterBody
  cases r.err <;> simp

theorem paletteLoop_effect (c : Ctx) (im : Image) (calls : List Call) (l : List String) :
    (paletteLoop c im calls l).effect = Effect.nothing ∨
      ∃ v, (paletteLoop c im calls l).effect = Effect.palette v := by
  induction l with
  | nil => left; rfl
  | cons name rest ih =>
    unfold paletteLoop
    split
    · split
      · left; rfl
      · right; exact ⟨_, rfl⟩
    · exact ih

theorem paletteTask_effect (c : Ctx) :
    (paletteTask c).effect = Effect.nothing ∨ ∃ v, (paletteTask c).effect = Effect.palette v := by
  unfold paletteTask
  simp only
  split
  · left; rfl
  · exact paletteLoop_effect c _ _ _

theorem processStep_effect (c : Ctx) (label : Label) (i : IIIFInstructions)
    (calls : List Call) (p : URI) :
    (processStep c label i calls p).effect = Effect.nothing ∨
      ∃ uri dims, (processStep c label i calls p).effect = Effect.derivative label uri dims := by
  unfold processStep
  split
  · left; rfl
  · split
    · left; rfl
    · right; exact ⟨_, _, rfl⟩

theorem derivativeTask_effect (c : Ctx) (label : Label) (i : IIIFInstructions) :
    (derivativeTask c label i).effect = Effect.nothing ∨
      ∃ uri dims, (derivativeTask c label i).effect = Effect.derivative label uri dims := by
  unfold derivativeTask
  split
  · left; rfl
  · exact processStep_effect c label i _ _

theorem inv_init (c : Ctx) : Inv c (init c) where
  len := by simp [init]
  rem := by
    simp only [init]
    rw [List.countP_replicate]
    simp [Phase.live]
  cnt := by simp [init, doneCount]
  events := by
    intro k r p _ hp
    have hp' : p = Phase.ready := by
      simp only [init] at hp
      rw [List.getElem?_replicate] at hp
      split at hp
      · exact (Option.some.inj hp).symm
      · cases hp
    subst hp'
    exact ⟨by simp [eventsOf, init, expectedEvents], by intro msg h; cases h⟩
  bound := by intro e he; simp [init] at he
  pal := by simp [init, GoMap.empty]
  res := by intro key _; simp [init, GoMap.empty]
  ret := by intro r h; simp [init] at h
  uri := by
    intro j e he
    have hj : j < c.instruction_set.entries.length := (List.getElem?_eq_some.1 he).1
    simp [init, GoMap.empty, IIIFInstructionSet.len, hj]
  uriNone := by intro label _; simp [init, GoMap.empty]
  dim := by
    intro j e he
    have hj : j < c.instruction_set.entries.length := (List.getElem?_eq_some.1 he).1
    simp [init, GoMap.empty, IIIFInstructionSet.len, hj]
  dimNone := by intro label _; simp [init, GoMap.empty]

theorem countP_live_set (l : List Phase) (k : Nat) (p q : Phase) (h : l[k]? = some p)
    (hpq : p.live = q.live) : (l.set k q).countP Phase.live = l.countP Phase.live := by
  obtain ⟨hk, hp⟩ := List.getElem?_eq_some.1 h
  rw [List.countP_set _ _ _ _ hk, hp, hpq]
  have := List.boole_getElem_le_countP Phase.live l k hk
  rw [hp, hpq] at this
  omega

theorem countP_live_finish (l : List Phase) (k : Nat) (p : Phase) (h : l[k]? = some p)
    (hp : p.live = true) :
    (l.set k Phase.finished).countP Phase.live + 1 = l.countP Phase.live := by
  obtain ⟨hk, hp'⟩ := List.getElem?_eq_some.1 h
  rw [List.countP_set _ _ _ _ hk, hp', hp]
  have := List.boole_getElem_le_countP Phase.live l k hk
  rw [hp', hp] at this
  have hf : Phase.finished.live = false := rfl
  rw [hf]
  simp only [Bool.false_eq_true, if_true, if_false] at this ⊢
  omega

theorem eventsOf_append (s : State) (k : Nat) (e : Event) (s' : State)
    (h : s'.received = s.received ++ [e]) :
    eventsOf s' k = eventsOf s k ++ (if e.task = k then [e] else []) := by
  unfold eventsOf
  rw [h, List.filter_append]
  congr 1
  by_cases hk : e.task = k
  · have hb : (e.task == k) = true := by simpa using hk
    simp [List.filter, hb, hk]
  · have hb : (e.task == k) = false := by simpa using hk
    simp [List.filter, hb, hk]

theorem ready_set_iff (l : List Phase) (k j : Nat) (p q : Phase) (h : l[k]? = some p)
    (hp : p ≠ Phase.ready) (hq : q ≠ Phase.ready) :
    (l.set k q)[j]? = some Phase.ready ↔ l[j]? = some Phase.ready := by
  by_cases hkj : k = j
  · subst hkj
    have hlt := (List.getElem?_eq_some.1 h).1
    rw [List.getElem?_set_self hlt, h]
    constructor
    · intro h'; exact absurd (Option.some.inj h') hq
    · intro h'; exact absurd (Option.some.inj h') hp
  · rw [List.getElem?_set_ne hkj]

theorem inv_recv_err (c : Ctx) (s : State) (k : Nat) (msg : String) (hI : Inv c s)
    (hk : s.phases[k]? = some (Phase.sendErr msg)) (hret : s.returned = none) :
    Inv c { s with phases := s.phases.set k Phase.sendDone,
                   received := s.received ++ [Event.err k msg] } where
  len := by simp [hI.len]
  rem := by
    simp only
    rw [countP_live_set _ k _ Phase.sendDone hk rfl]
    exact hI.rem
  cnt := by
    have := hI.cnt
    simp only [doneCount, List.countP_append] at this ⊢
    simpa using this
  events := by
    intro k' r p' hr hp'
    simp only at hp'
    rw [eventsOf_append s k' (Event.err k msg) _ rfl]
    by_cases hkk : k = k'
    · subst hkk
      have hlt := (List.getElem?_eq_some.1 hk).1
      rw [List.getElem?_set_self hlt] at hp'
      cases hp'
      obtain ⟨h1, h2⟩ := hI.events k r _ hr hk
      have h3 := h2 msg rfl
      refine ⟨?_, by intro m hm; cases hm⟩
      simp [Event.task, h1, expectedEvents, errEvents, h3]
    · rw [List.getElem?_set_ne hkk] at hp'
      obtain ⟨h1, h2⟩ := hI.events k' r p' hr hp'
      exact ⟨by simp [Event.task, hkk, h1], h2⟩
  bound := by
    intro e he
    simp only [List.mem_append, List.mem_singleton] at he
    rcases he with he | he
    · exact hI.bound e he
    · subst he
      have hlt := (List.getElem?_eq_some.1 hk).1
      rw [hI.len] at hlt
      exact hlt
  pal := by
    simp only
    rw [hI.pal]
    simp only [ready_set_iff s.phases k _ (Phase.sendErr msg) Phase.sendDone hk (by simp) (by simp)]
  res := by
    intro key hkey
    simpa using hI.res key hkey
  ret := by
    intro r hr
    simp only at hr
    rw [hret] at hr
    cases hr
  uri := by
    intro j e he
    simp only
    rw [hI.uri j e he]
    simp only [ready_set_iff s.phases k _ (Phase.sendErr msg) Phase.sendDone hk (by simp) (by simp)]
  uriNone := hI.uriNone
  dim := by
    intro j e he
    simp only
    rw [hI.dim j e he]
    simp only [ready_set_iff s.phases k _ (Phase.sendErr msg) Phase.sendDone hk (by simp) (by simp)]
  dimNone := hI.dimNone

theorem inv_recv_done (c : Ctx) (s : State) (k : Nat) (hI : Inv c s)
    (hk : s.phases[k]? = some Phase.sendDone) (hret : s.returned = none)
    (hrem : s.remaining ≠ 0) :
    Inv c { s with phases := s.phases.set k Phase.finished,
                   remaining := s.remaining - 1,
                   received := s.received ++ [Event.done k] } where
  len := by simp [hI.len]
  rem := by
    simp only
    have := countP_live_finish _ _ _ hk rfl
    have := hI.rem
    omega
  cnt := by
    have := hI.cnt
    simp only [doneCount, List.countP_append] at this ⊢
    simp only [List.countP_cons, List.countP_nil] at this ⊢
    simp only [if_true] at this ⊢
    omega
  events := by
    intro k' r p' hr hp'
    simp only at hp'
    rw [eventsOf_append s k' (Event.done k) _ rfl]
    by_cases hkk : k = k'
    · subst hkk
      have hlt := (List.getElem?_eq_some.1 hk).1
      rw [List.getElem?_set_self hlt] at hp'
      cases hp'
      obtain ⟨h1, _⟩ := hI.events k r _ hr hk
      refine ⟨?_, by intro m hm; cases hm⟩
      simp [Event.task, h1, expectedEvents]
    · rw [List.getElem?_set_ne hkk] at hp'
      obtain ⟨h1, h2⟩ := hI.events k' r p' hr hp'
      exact ⟨by simp [Event.task, hkk, h1], h2⟩
  bound := by
    intro e he
    simp only [List.mem_append, List.mem_singleton] at he
    rcases he with he | he
    · exact hI.bound e he
    · subst he
      have hlt := (List.getElem?_eq_some.1 hk).1
      rw [hI.len] at hlt
      exact hlt
  pal := by
    simp only
    rw [hI.pal]
    simp only [ready_set_iff s.phases k _ Phase.sendDone Phase.finished hk (by simp) (by simp)]
  res := by
    intro key hkey
    simpa using hI.res key hkey
  ret := by
    intro r hr
    simp only at hr
    rw [hret] at hr
    cases hr
  uri := by
    intro j e he
    simp only
    rw [hI.uri j e he]
    simp only [ready_set_iff s.phases k _ Phase.sendDone Phase.finished hk (by simp) (by simp)]
  uriNone := hI.uriNone
  dim := by
    intro j e he
    simp only
    rw [hI.dim j e he]
    simp only [ready_set_iff s.phases k _ Phase.sendDone Phase.finished hk (by simp) (by simp)]
  dimNone := hI.dimNone

theorem applyEffect_phases (s : State) (e : Effect) : (applyEffect s e).phases = s.phases := by
  cases e <;> rfl

theorem applyEffect_remaining (s : State) (e : Effect) :
    (applyEffect s e).remaining = s.remaining := by
  cases e <;> rfl

theorem applyEffect_received (s : State) (e : Effect) :
    (applyEffect s e).received = s.received := by
  cases e <;> rfl

theorem applyEffect_returned (s : State) (e : Effect) :
    (applyEffect s e).returned = s.returned := by
  cases e <;> rfl

theorem all_finished (c : Ctx) (s : State) (hI : Inv c s) (h0 : s.remaining = 0) (k : Nat)
    (p : Phase) (hk : s.phases[k]? = some p) : p = Phase.finished := by
  have hc := hI.rem
  rw [h0] at hc
  have hall := List.countP_eq_zero.1 hc.symm
  have hmem : p ∈ s.phases := List.getElem?_mem hk
  have := hall p hmem
  cases p <;> simp [Phase.live] at this ⊢

theorem not_returned_of_ready (c : Ctx) (s : State) (hI : Inv c s) (k : Nat)
    (hk : s.phases[k]? = some Phase.ready) : s.returned = none := by
  cases hr : s.returned with
  | none => rfl
  | some r =>
    have h0 := (hI.ret r hr).2
    have := all_finished c s hI h0 k _ hk
    cases this

theorem label_inj (c : Ctx) (j j' : Nat) (e e' : Label × IIIFInstructions)
    (he : c.instruction_set.entries[j]? = some e)
    (he' : c.instruction_set.entries[j']? = some e') (h : e'.1 = e.1) : j' = j := by
  obtain ⟨hj, hje⟩ := List.getElem?_eq_some.1 he
  obtain ⟨hj', hje'⟩ := List.getElem?_eq_some.1 he'
  have hn := c.instruction_set.nodup
  have hm : j < (c.instruction_set.entries.map Prod.fst).length := by simpa using hj
  have hm' : j' < (c.instruction_set.entries.map Prod.fst).length := by simpa using hj'
  have h1 : (c.instruction_set.entries.map Prod.fst)[j'] =
      (c.instruction_set.entries.map Prod.fst)[j] := by
    simp [hje, hje', h]
  exact (List.Nodup.getElem_inj_iff hn).1 h1

theorem run_events (c : Ctx) (s : State) (k : Nat) (r : TaskRun) (hI : Inv c s)
    (hk : s.phases[k]? = some Phase.ready) (hr : taskRun c k = some r)
    (k' : Nat) (r' : TaskRun) (p' : Phase) (hr' : taskRun c k' = some r')
    (hp' : (s.phases.set k (afterBody r))[k']? = some p') :
    eventsOf s k' = expectedEvents k' r' p' ∧
      (∀ msg, p' = Phase.sendErr msg → r'.err = some msg) := by
  by_cases hkk : k = k'
  · subst hkk
    have hlt := (List.getElem?_eq_some.1 hk).1
    rw [List.getElem?_set_self hlt] at hp'
    rw [hr] at hr'
    cases hr'
    cases hp'
    obtain ⟨h1, _⟩ := hI.events k r _ hr hk
    rw [h1]
    unfold afterBody
    cases he : r.err with
    | none => simp [expectedEvents, errEvents, he]
    | some m => simp [expectedEvents]
  · rw [List.getElem?_set_ne hkk] at hp'
    exact hI.events k' r' p' hr' hp'

theorem inv_run_palette (c : Ctx) (s : State) (hI : Inv c s)
    (hk : s.phases[0]? = some Phase.ready) :
    Inv c { applyEffect s (paletteTask c).effect with
      phases := s.phases.set 0 (afterBody (paletteTask c)) } := by
  have hret := not_returned_of_ready c s hI 0 hk
  have hlt := (List.getElem?_eq_some.1 hk).1
  have hmaps : (applyEffect s (paletteTask c).effect).uris = s.uris ∧
      (applyEffect s (paletteTask c).effect).dimensions = s.dimensions := by
    rcases paletteTask_effect c with h | ⟨v, h⟩ <;> rw [h] <;> exact ⟨rfl, rfl⟩
  refine
    { len := by simp [hI.len]
      rem := ?_, cnt := ?_, events := ?_, bound := ?_, pal := ?_, res := ?_, ret := ?_,
      uri := ?_, uriNone := ?_, dim := ?_, dimNone := ?_ }
  · simp only [applyEffect_remaining]
    rw [countP_live_set _ 0 _ (afterBody (paletteTask c)) hk (live_afterBody _).symm]
    exact hI.rem
  · simpa [doneCount, applyEffect_remaining, applyEffect_received] using hI.cnt
  · intro k' r' p' hr' hp'
    have := run_events c s 0 (paletteTask c) hI hk rfl k' r' p' hr' hp'
    simpa [eventsOf, applyEffect_received] using this
  · intro e he
    simp only [applyEffect_received] at he
    exact hI.bound e he
  · simp only [List.getElem?_set_self hlt]
    rw [if_neg (by intro h; exact afterBody_ne_ready _ (Option.some.inj h))]
    have h0 := hI.pal
    rw [if_pos hk] at h0
    rcases paletteTask_effect c with h | ⟨v, h⟩
    · rw [h]; simpa [applyEffect, Effect.palette?] using h0
    · rw [h]; simp [applyEffect, Effect.palette?, GoMap.set]
  · intro key hkey
    have h0 := hI.res key hkey
    simp only [hret, Option.isSome_none] at h0
    simp only [applyEffect_returned, hret, Option.isSome_none]
    rcases paletteTask_effect c with h | ⟨v, h⟩
    · rw [h]; simpa [applyEffect] using h0
    · rw [h]; simpa [applyEffect, GoMap.set, hkey] using h0
  · intro r hr
    simp only [applyEffect_returned, hret] at hr
    cases hr
  · intro j e he
    simp only [hmaps.1]
    rw [List.getElem?_set_ne (by omega)]
    exact hI.uri j e he
  · intro label hl
    simp only [hmaps.1]
    exact hI.uriNone label hl
  · intro j e he
    simp only [hmaps.2]
    rw [List.getElem?_set_ne (by omega)]
    exact hI.dim j e he
  · intro label hl
    simp only [hmaps.2]
    exact hI.dimNone label hl

theorem taskRun_succ (c : Ctx) (j : Nat) (e : Label × IIIFInstructions)
    (he : c.instruction_set.entries[j]? = some e) :
    taskRun c (j + 1) = some (derivativeTask c e.1 (c.lib.EnsureInstructions e.2)) := by
  simp [taskRun, he]

theorem inv_run_derivative (c : Ctx) (s : State) (hI : Inv c s) (j : Nat)
    (e : Label × IIIFInstructions) (he : c.instruction_set.entries[j]? = some e)
    (hk : s.phases[j + 1]? = some Phase.ready) :
    Inv c { applyEffect s (entryEffect c e) with
      phases := s.phases.set (j + 1)
        (afterBody (derivativeTask c e.1 (c.lib.EnsureInstructions e.2))) } := by
  have hret := not_returned_of_ready c s hI (j + 1) hk
  have hlt := (List.getElem?_eq_some.1 hk).1
  have hres : (applyEffect s (entryEffect c e)).results = s.results := by
    unfold entryEffect
    rcases derivativeTask_effect c e.1 (c.lib.EnsureInstructions e.2) with h | ⟨u, d, h⟩ <;>
      rw [h] <;> rfl
  have hmem : e.1 ∈ c.instruction_set.entries.map Prod.fst :=
    List.mem_map.2 ⟨e, List.getElem?_mem he, rfl⟩
  have huri : ∀ label, (applyEffect s (entryEffect c e)).uris label =
      if label = e.1 then
        (if (entryEffect c e).uri?.isSome then (entryEffect c e).uri? else s.uris e.1)
      else s.uris label := by
    intro label
    unfold entryEffect
    rcases derivativeTask_effect c e.1 (c.lib.EnsureInstructions e.2) with h | ⟨u, d, h⟩
    · rw [h]
      by_cases hl : label = e.1 <;> simp [applyEffect, Effect.uri?, hl]
    · rw [h]
      by_cases hl : label = e.1 <;> simp [applyEffect, Effect.uri?, GoMap.set, hl]
  have hdim : ∀ label, (applyEffect s (entryEffect c e)).dimensions label =
      if label = e.1 then
        (if (entryEffect c e).dims?.isSome then (entryEffect c e).dims? else s.dimensions e.1)
      else s.dimensions label := by
    intro label
    unfold entryEffect
    rcases derivativeTask_effect c e.1 (c.lib.EnsureInstructions e.2) with h | ⟨u, d, h⟩
    · rw [h]
      by_cases hl : label = e.1 <;> simp [applyEffect, Effect.dims?, hl]
    · rw [h]
      by_cases hl : label = e.1 <;> simp [applyEffect, Effect.dims?, GoMap.set, hl]
  refine
    { len := by simp [hI.len]
      rem := ?_, cnt := ?_, events := ?_, bound := ?_, pal := ?_, res := ?_, ret := ?_,
      uri := ?_, uriNone := ?_, dim := ?_, dimNone := ?_ }
  · simp only [applyEffect_remaining]
    rw [countP_live_set _ (j + 1) _ _ hk (live_afterBody _).symm]
    exact hI.rem
  · simpa [doneCount, applyEffect_remaining, applyEffect_received] using hI.cnt
  · intro k' r' p' hr' hp'
    have := run_events c s (j + 1) _ hI hk (taskRun_succ c j e he) k' r' p' hr' hp'
    simpa [eventsOf, applyEffect_received] using this
  · intro ev hev
    simp only [applyEffect_received] at hev
    exact hI.bound ev hev
  · simp only [hres]
    rw [List.getElem?_set_ne (by omega)]
    exact hI.pal
  · intro key hkey
    have h0 := hI.res key hkey
    simp only [hret, Option.isSome_none] at h0
    simp only [applyEffect_returned, hret, Option.isSome_none, hres]
    simpa using h0
  · intro r hr
    simp only [applyEffect_returned, hret] at hr
    cases hr
  · intro j' e' he'
    simp only [huri]
    by_cases hl : e'.1 = e.1
    · have hjj := label_inj c j j' e e' he he' hl
      subst hjj
      rw [he] at he'
      cases he'
      have h0 := hI.uri j' e he
      rw [if_pos hk] at h0
      have hnr : ¬ (s.phases.set (j' + 1)
          (afterBody (derivativeTask c e.1 (c.lib.EnsureInstructions e.2))))[j' + 1]? =
            some Phase.ready := by
        rw [List.getElem?_set_self hlt]
        intro h
        exact afterBody_ne_ready _ (Option.some.inj h)
      rw [if_pos rfl, if_neg hnr, h0]
      cases (entryEffect c e).uri? <;> simp
    · have hjj : j + 1 ≠ j' + 1 := by
        intro h
        have : j = j' := by omega
        subst this
        rw [he] at he'
        cases he'
        exact hl rfl
      rw [if_neg hl, List.getElem?_set_ne hjj]
      exact hI.uri j' e' he'
  · intro label hl
    have hne : label ≠ e.1 := by
      intro h
      exact hl (h ▸ hmem)
    rw [huri, if_neg hne]
    exact hI.uriNone label hl
  · intro j' e' he'
    simp only [hdim]
    by_cases hl : e'.1 = e.1
    · have hjj := label_inj c j j' e e' he he' hl
      subst hjj
      rw [he] at he'
      cases he'
      have h0 := hI.dim j' e he
      rw [if_pos hk] at h0
      have hnr : ¬ (s.phases.set (j' + 1)
          (afterBody (derivativeTask c e.1 (c.lib.EnsureInstructions e.2))))[j' + 1]? =
            some Phase.ready := by
        rw [List.getElem?_set_self hlt]
        intro h
        exact afterBody_ne_ready _ (Option.some.inj h)
      rw [if_pos rfl, if_neg hnr, h0]
      cases (entryEffect c e).dims? <;> simp
    · have hjj : j + 1 ≠ j' + 1 := by
        intro h
        have : j = j' := by omega
        subst this
        rw [he] at he'
        cases he'
        exact hl rfl
      rw [if_neg hl, List.getElem?_set_ne hjj]
      exact hI.dim j' e' he'
  · intro label hl
    have hne : label ≠ e.1 := by
      intro h
      exact hl (h ▸ hmem)
    rw [hdim, if_neg hne]
    exact hI.dimNone label hl

theorem inv_ret (c : Ctx) (s : State) (hI : Inv c s) (hret : s.returned = none)
    (h0 : s.remaining = 0) :
    Inv c { s with
      results := (s.results.set "uris" (Value.uris s.uris)).set "dimensions"
        (Value.dimensions s.dimensions)
      returned := some ((s.results.set "uris" (Value.uris s.uris)).set "dimensions"
        (Value.dimensions s.dimensions), none) } where
  len := hI.len
  rem := hI.rem
  cnt := hI.cnt
  events := hI.events
  bound := hI.bound
  pal := by
    simp only
    rw [GoMap.set_other _ _ _ _ (by decide), GoMap.set_other _ _ _ _ (by decide)]
    exact hI.pal
  res := by
    intro key hkey
    have h := hI.res key hkey
    simp only [hret, Option.isSome_none] at h
    simp only [Option.isSome_some, if_true]
    by_cases hd : key = "dimensions"
    · simp [GoMap.set, hd]
    · by_cases hu : key = "uris"
      · simp [GoMap.set, hu]
      · simpa [GoMap.set, hd, hu] using h
  ret := by
    intro r hr
    simp only at hr
    cases hr
    exact ⟨rfl, h0⟩
  uri := hI.uri
  uriNone := hI.uriNone
  dim := hI.dim
  dimNone := hI.dimNone

theorem inv_step (c : Ctx) (s s' : State) (ch : Choice) (hI : Inv c s)
    (h : step? c s ch = some s') : Inv c s' := by
  cases ch with
  | run k =>
    cases k with
    | zero =>
      simp only [step?, taskRun] at h
      split at h
      · rename_i r hp hr
        cases hr
        cases h
        exact inv_run_palette c s hI hp
      · cases h
    | succ j =>
      simp only [step?] at h
      split at h
      · rename_i r hp hr
        cases he : c.instruction_set.entries[j]? with
        | none => simp [taskRun, he] at hr
        | some e =>
          rw [taskRun_succ c j e he] at hr
          cases hr
          cases h
          exact inv_run_derivative c s hI j e he hp
      · cases h
  | recv k =>
    simp only [step?] at h
    split at h
    · cases h
    · rename_i hg
      simp only [Bool.or_eq_true, Option.isSome_iff_ne_none, beq_iff_eq, not_or,
        ne_eq, not_not] at hg
      split at h
      · rename_i msg hp
        cases h
        exact inv_recv_err c s k msg hI hp hg.1
      · rename_i hp
        cases h
        exact inv_recv_done c s k hI hp hg.1 hg.2
      · cases h
  | idle =>
    simp only [step?] at h
    split at h
    · cases h
    · split at h
      · cases h
      · cases h
        exact hI
  | ret =>
    simp only [step?] at h
    split at h
    · cases h
    · rename_i hg
      simp only [Bool.or_eq_true, Option.isSome_iff_ne_none, bne_iff_ne, not_or,
        ne_eq, not_not] at hg
      cases h
      exact inv_ret c s hI hg.1 hg.2

theorem inv_exec (c : Ctx) (cs : List Choice) (s : State) (hI : Inv c s) :
    Inv c (exec c s cs) := by
  induction cs generalizing s with
  | nil => exact hI
  | cons ch rest ih =>
    simp only [exec]
    cases h : step? c s ch with
    | none => exact ih s hI
    | some s' => exact ih s' (inv_step c s s' ch hI h)

theorem final_uris (c : Ctx) (s : State) (hI : Inv c s) (h0 : s.remaining = 0) :
    s.uris = finalUris c := by
  funext label
  unfold finalUris
  cases hf : c.instruction_set.entries.find? (fun e => e.1 == label) with
  | none =>
    have hn : label ∉ c.instruction_set.entries.map Prod.fst := by
      intro hm
      obtain ⟨e, he, hl⟩ := List.mem_map.1 hm
      have := List.find?_eq_none.1 hf e he
      simp [hl] at this
    simpa using hI.uriNone label hn
  | some e =>
    have hl : e.1 = label := by simpa using List.find?_some hf
    obtain ⟨j, hj⟩ := List.getElem?_of_mem (List.mem_of_find?_eq_some hf)
    have hu := hI.uri j e hj
    have hnr : ¬ s.phases[j + 1]? = some Phase.ready := by
      intro hr
      have := all_finished c s hI h0 (j + 1) _ hr
      cases this
    rw [if_neg hnr, hl] at hu
    simpa using hu

theorem final_dimensions (c : Ctx) (s : State) (hI : Inv c s) (h0 : s.remaining = 0) :
    s.dimensions = finalDimensions c := by
  funext label
  unfold finalDimensions
  cases hf : c.instruction_set.entries.find? (fun e => e.1 == label) with
  | none =>
    have hn : label ∉ c.instruction_set.entries.map Prod.fst := by
      intro hm
      obtain ⟨e, he, hl⟩ := List.mem_map.1 hm
      have := List.find?_eq_none.1 hf e he
      simp [hl] at this
    simpa using hI.dimNone label hn
  | some e =>
    have hl : e.1 = label := by simpa using List.find?_some hf
    obtain ⟨j, hj⟩ := List.getElem?_of_mem (List.mem_of_find?_eq_some hf)
    have hu := hI.dim j e hj
    have hnr : ¬ s.phases[j + 1]? = some Phase.ready := by
      intro hr
      have := all_finished c s hI h0 (j + 1) _ hr
      cases this
    rw [if_neg hnr, hl] at hu
    simpa using hu

/-- Every state in which the function has returned holds the same pair. -/
theorem returned_eq (c : Ctx) (s : State) (hI : Inv c s)
    (r : GoMap String Value × Option String) (hr : s.returned = some r) :
    r = ParallelProcessURIWithInstructionSet c := by
  obtain ⟨hrs, h0⟩ := hI.ret r hr
  subst hrs
  unfold ParallelProcessURIWithInstructionSet
  simp only [Prod.mk.injEq, and_true]
  funext key
  by_cases hp : key = "palette"
  · subst hp
    have hnr : ¬ s.phases[0]? = some Phase.ready := by
      intro h
      have := all_finished c s hI h0 0 _ h
      cases this
    rw [hI.pal, if_neg hnr]
    simp [GoMap.set]
  · rw [hI.res key hp, hr, final_uris c s hI h0, final_dimensions c s hI h0]
    simp [GoMap.set, hp]

theorem sum_weight_set (l : List Phase) (k : Nat) (p q : Phase) (h : l[k]? = some p) :
    ((l.set k q).map Phase.weight).sum + p.weight = (l.map Phase.weight).sum + q.weight := by
  induction l generalizing k with
  | nil => simp at h
  | cons a l ih =>
    cases k with
    | zero =>
      simp only [List.getElem?_cons_zero, Option.some.injEq] at h
      subst h
      simp only [List.set_cons_zero, List.map_cons, List.sum_cons]
      omega
    | succ k =>
      simp only [List.getElem?_cons_succ] at h
      have := ih k h
      simp only [List.set_cons_succ, List.map_cons, List.sum_cons]
      omega

theorem weight_afterBody (r : TaskRun) : (afterBody r).weight < 3 := by
  unfold afterBody
  cases r.err <;> simp [Phase.weight]

/-- An enabled step other than `idle` lowers the measure; `idle` changes nothing. -/
theorem step_measure (c : Ctx) (s s' : State) (ch : Choice) (h : step? c s ch = some s') :
    (ch = Choice.idle ∧ s' = s) ∨ (ch ≠ Choice.idle ∧ measure s' < measure s) := by
  cases ch with
  | run k =>
    right
    refine ⟨by simp, ?_⟩
    simp only [step?] at h
    split at h
    · rename_i r hp hr
      cases h
      have := sum_weight_set s.phases k Phase.ready (afterBody r) hp
      have hw := weight_afterBody r
      have h3 : Phase.ready.weight = 3 := rfl
      simp only [measure, applyEffect_returned, h3] at this ⊢
      omega
    · cases h
  | recv k =>
    right
    refine ⟨by simp, ?_⟩
    simp only [step?] at h
    split at h
    · cases h
    · split at h
      · rename_i msg hp
        cases h
        have := sum_weight_set s.phases k _ Phase.sendDone hp
        simp only [measure, Phase.weight] at this ⊢
        omega
      · rename_i hp
        cases h
        have := sum_weight_set s.phases k _ Phase.finished hp
        simp only [measure, Phase.weight] at this ⊢
        omega
      · cases h
  | idle =>
    left
    refine ⟨rfl, ?_⟩
    simp only [step?] at h
    split at h
    · cases h
    · split at h
      · cases h
      · cases h; rfl
  | ret =>
    right
    refine ⟨by simp, ?_⟩
    simp only [step?] at h
    split at h
    · cases h
    · rename_i hg
      simp only [Bool.or_eq_true, Option.isSome_iff_ne_none, bne_iff_ne, not_or,
        ne_eq, not_not] at hg
      cases h
      simp [measure, hg.1]

theorem taskRun_defined (c : Ctx) (k : Nat) (hk : k < c.instruction_set.len + 1) :
    ∃ r, taskRun c k = some r := by
  cases k with
  | zero => exact ⟨_, rfl⟩
  | succ j =>
    have hj : j < c.instruction_set.entries.length := by
      simp only [IIIFInstructionSet.len] at hk
      omega
    exact ⟨_, taskRun_succ c j _ (List.getElem?_eq_getElem hj)⟩

/-- Before the return some step other than `idle` is always enabled: no deadlock. -/
theorem progress (c : Ctx) (s : State) (hI : Inv c s) (hret : s.returned = none) :
    ∃ ch, ch ≠ Choice.idle ∧ (step? c s ch).isSome = true := by
  by_cases h0 : s.remaining = 0
  · exact ⟨Choice.ret, by simp, by simp [step?, hret, h0]⟩
  · have hpos : 0 < s.phases.countP Phase.live := by
      have := hI.rem
      omega
    obtain ⟨p, hp, hlive⟩ := List.countP_pos_iff.1 hpos
    obtain ⟨k, hk⟩ := List.getElem?_of_mem hp
    cases p with
    | ready =>
      have hlt := (List.getElem?_eq_some.1 hk).1
      rw [hI.len] at hlt
      obtain ⟨r, hr⟩ := taskRun_defined c k hlt
      exact ⟨Choice.run k, by simp, by simp [step?, hk, hr]⟩
    | sendErr msg => exact ⟨Choice.recv k, by simp, by simp [step?, hret, h0, hk]⟩
    | sendDone => exact ⟨Choice.recv k, by simp, by simp [step?, hret, h0, hk]⟩
    | finished => simp [Phase.live] at hlive

theorem exists_complete (c : Ctx) (n : Nat) (s : State) (hI : Inv c s) (hn : measure s ≤ n) :
    ∃ cs, cs.length ≤ n ∧ (exec c s cs).returned.isSome = true := by
  induction n generalizing s with
  | zero =>
    refine ⟨[], by simp, ?_⟩
    simp only [exec]
    cases hr : s.returned with
    | some r => rfl
    | none => simp [measure, hr] at hn
  | succ n ih =>
    cases hr : s.returned with
    | some r => exact ⟨[], by simp, by simp [exec, hr]⟩
    | none =>
      obtain ⟨ch, hne, hsome⟩ := progress c s hI hr
      obtain ⟨s', hstep⟩ := Option.isSome_iff_exists.1 hsome
      have hm : measure s' < measure s := by
        rcases step_measure c s s' ch hstep with ⟨h, _⟩ | ⟨_, h⟩
        · exact absurd h hne
        · exact h
      obtain ⟨cs, hlen, hcs⟩ := ih s' (inv_step c s s' ch hI hstep) (by omega)
      refine ⟨ch :: cs, by simp; omega, ?_⟩
      simp only [exec, hstep, Option.getD_some]
      exact hcs

theorem measure_init (c : Ctx) : measure (init c) = 3 * (c.instruction_set.len + 1) + 1 := by
  simp [measure, init, Phase.weight]
  omega

/-! ## The URI rewrite (C3, C4) -/

theorem targetOpts_spec (label : Label) (i : IIIFInstructions) (key : String) :
    targetOpts label i key =
      if key = "original" ∧ label = "o" then some ["1"]
      else if key = "format" then some [i.Format]
      else if key = "label" then some [label]
      else none := by
  unfold targetOpts
  by_cases ho : label = "o"
  · by_cases h1 : key = "original"
    · simp [Values.Set, GoMap.set, ho, h1]
    · by_cases h2 : key = "format"
      · simp [Values.Set, GoMap.set, ho, h2]
      · by_cases h3 : key = "label"
        · simp [Values.Set, GoMap.set, ho, h3]
        · simp [Values.Set, GoMap.set, GoMap.empty, ho, h1, h2, h3]
  · by_cases h2 : key = "format"
    · simp [Values.Set, GoMap.set, ho, h2]
    · by_cases h3 : key = "label"
      · simp [Values.Set, GoMap.set, ho, h3]
      · simp [Values.Set, GoMap.set, GoMap.empty, ho, h2, h3]

theorem processStep_calls (c : Ctx) (label : Label) (i : IIIFInstructions)
    (calls : List Call) (p : URI) :
    (processStep c label i calls p).calls =
        calls ++ [Call.ProcessURIWithInstructions p label i] ∨
      (processStep c label i calls p).calls =
        calls ++ [Call.ProcessURIWithInstructions p label i, Call.Dimensions] := by
  unfold processStep
  split
  · left; rfl
  · split
    · right; rfl
    · right; rfl

theorem idsecret_target_options (c : Ctx) (label : Label) (i : IIIFInstructions)
    (hd : c.u.Driver = "idsecret") :
    ∃ opts rest,
      (derivativeTask c label (c.lib.EnsureInstructions i)).calls = Call.Target opts :: rest ∧
      (∀ call ∈ rest, call.isTarget = false) ∧
      opts "label" = some [label] ∧
      opts "format" = some [(c.lib.EnsureInstructions i).Format] ∧
      (opts "original" = some ["1"] ↔ label = "o") ∧
      (label ≠ "o" → opts "original" = none) ∧
      (∀ key, key ≠ "label" → key ≠ "format" → key ≠ "original" → opts key = none) := by
  refine ⟨targetOpts label (c.lib.EnsureInstructions i), ?_⟩
  have hspec := targetOpts_spec label (c.lib.EnsureInstructions i)
  have hcalls : ∃ rest,
      (derivativeTask c label (c.lib.EnsureInstructions i)).calls =
        Call.Target (targetOpts label (c.lib.EnsureInstructions i)) :: rest ∧
      (∀ call ∈ rest, call.isTarget = false) := by
    unfold derivativeTask rewriteURI
    simp only [hd, if_true]
    split
    · rename_i calls msg heq
      split at heq
      · cases heq
        exact ⟨[], rfl, by simp⟩
      · split at heq
        · cases heq
          exact ⟨_, rfl, by simp [Call.isTarget]⟩
        · cases heq
    · rename_i calls process_uri heq
      split at heq
      · cases heq
      · split at heq
        · cases heq
        · cases heq
          rcases processStep_calls c label (c.lib.EnsureInstructions i) _ process_uri
            with h | h
          · exact ⟨_, by rw [h]; rfl, by simp [Call.isTarget]⟩
          · exact ⟨_, by rw [h]; rfl, by simp [Call.isTarget]⟩
  obtain ⟨rest, h1, h2⟩ := hcalls
  refine ⟨rest, h1, h2, ?_, ?_, ?_, ?_, ?_⟩
  · rw [hspec]; simp
  · rw [hspec]; simp
  · rw [hspec]
    by_cases ho : label = "o" <;> simp [ho]
  · intro ho
    rw [hspec]; simp [ho]
  · intro key h1 h2 h3
    rw [hspec]; simp [h1, h2, h3]

/-- C3. For a source whose `Driver()` is `"idsecret"`, the goroutine of an entry
`(label, i)` of the instruction set calls `u.Target` exactly once, first of all its calls,
and the option set it passes holds `label` = the label, `format` = the format of the
default-filled instructions, `original` = `1` exactly when the label is `"o"`, and no
other key. -/
theorem C3_idsecret_target_options (c : Ctx) (label : Label) (i : IIIFInstructions)
    (hd : c.u.Driver = "idsecret") (hmem : (label, i) ∈ c.instruction_set.entries) :
    ∃ j r opts rest, c.instruction_set.entries[j]? = some (label, i) ∧
      taskRun c (j + 1) = some r ∧
      r.calls = Call.Target opts :: rest ∧
      (∀ call ∈ rest, call.isTarget = false) ∧
      opts "label" = some [label] ∧
      opts "format" = some [(c.lib.EnsureInstructions i).Format] ∧
      (opts "original" = some ["1"] ↔ label = "o") ∧
      (label ≠ "o" → opts "original" = none) ∧
      (∀ key, key ≠ "label" → key ≠ "format" → key ≠ "original" → opts key = none) := by
  obtain ⟨j, hj⟩ := List.getElem?_of_mem hmem
  obtain ⟨opts, rest, h⟩ := idsecret_target_options c label i hd
  exact ⟨j, _, opts, rest, hj, taskRun_succ c j _ hj, h⟩

theorem derivativeTask_plain (c : Ctx) (label : Label) (i : IIIFInstructions)
    (hd : c.u.Driver ≠ "idsecret") :
    derivativeTask c label i = processStep c label i [] c.u := by
  unfold derivativeTask rewriteURI
  simp [hd]

theorem derivativeTask_target_error (c : Ctx) (label : Label) (i : IIIFInstructions)
    (hd : c.u.Driver = "idsecret") (err : String)
    (ht : c.u.Target (targetOpts label i) = Except.error err) :
    derivativeTask c label i =
      ⟨[Call.Target (targetOpts label i)],
        some ("failed to derive target " ++ c.u.Str ++ " (" ++ label ++ ") : " ++ err),
        Effect.nothing⟩ := by
  unfold derivativeTask rewriteURI
  simp [hd, ht]

theorem derivativeTask_reparse_error (c : Ctx) (label : Label) (i : IIIFInstructions)
    (hd : c.u.Driver = "idsecret") (t err : String)
    (ht : c.u.Target (targetOpts label i) = Except.ok t)
    (hn : c.lib.NewURI (c.lib.NewRewriteURIString (c.u.Origin ++ "?target=" ++ t)) =
      Except.error err) :
    derivativeTask c label i =
      ⟨[Call.Target (targetOpts label i),
          Call.NewRewriteURIString (c.u.Origin ++ "?target=" ++ t),
          Call.NewURI (c.lib.NewRewriteURIString (c.u.Origin ++ "?target=" ++ t))],
        some ("failed to generate rewrite URL " ++ c.u.Str ++ " (" ++ label ++ ") : " ++ err),
        Effect.nothing⟩ := by
  unfold derivativeTask rewriteURI
  simp [hd, ht, hn]

theorem derivativeTask_rewritten (c : Ctx) (label : Label) (i : IIIFInstructions)
    (hd : c.u.Driver = "idsecret") (t : String) (rw_uri : URI)
    (ht : c.u.Target (targetOpts label i) = Except.ok t)
    (hn : c.lib.NewURI (c.lib.NewRewriteURIString (c.u.Origin ++ "?target=" ++ t)) =
      Except.ok rw_uri) :
    derivativeTask c label i =
      processStep c label i
        [Call.Target (targetOpts label i),
          Call.NewRewriteURIString (c.u.Origin ++ "?target=" ++ t),
          Call.NewURI (c.lib.NewRewriteURIString (c.u.Origin ++ "?target=" ++ t))] rw_uri := by
  unfold derivativeTask rewriteURI
  simp [hd, ht, hn]

theorem processStep_calls_shape (c : Ctx) (label : Label) (i : IIIFInstructions)
    (calls : List Call) (p : URI) :
    ∃ rest, (processStep c label i calls p).calls =
        calls ++ Call.ProcessURIWithInstructions p label i :: rest ∧
      ∀ call ∈ rest, call.isProcess = false ∧ call.isTarget = false := by
  rcases processStep_calls c label i calls p with h | h
  · exact ⟨[], by rw [h], by simp⟩
  · exact ⟨[Call.Dimensions], by rw [h], by simp [Call.isProcess, Call.isTarget]⟩

/-- C4. The goroutine of an entry `(label, i)` of the instruction set, with `i'` the
default-filled instructions. If `u.Driver()` is not `"idsecret"` it never calls `u.Target`
and its first call hands the source URI `u` itself to the processor. If it is
`"idsecret"`: when `u.Target` fails, or when parsing
`NewRewriteURIString(origin + "?target=" + target)` fails, the goroutine sends an error,
writes nothing and never calls the processor; otherwise the URI handed to the processor
is the parsed one. The processor is called at most once. -/
theorem C4_effective_uri (c : Ctx) (label : Label) (i : IIIFInstructions)
    (hmem : (label, i) ∈ c.instruction_set.entries) :
    ∃ j r, c.instruction_set.entries[j]? = some (label, i) ∧ taskRun c (j + 1) = some r ∧
      (c.u.Driver ≠ "idsecret" →
        (∀ call ∈ r.calls, call.isTarget = false) ∧
        ∃ rest, r.calls =
            Call.ProcessURIWithInstructions c.u label (c.lib.EnsureInstructions i) :: rest ∧
          ∀ call ∈ rest, call.isProcess = false) ∧
      (c.u.Driver = "idsecret" →
        (∀ err, c.u.Target (targetOpts label (c.lib.EnsureInstructions i)) = Except.error err →
          r.err.isSome = true ∧ r.effect = Effect.nothing ∧
            ∀ call ∈ r.calls, call.isProcess = false) ∧
        (∀ t, c.u.Target (targetOpts label (c.lib.EnsureInstructions i)) = Except.ok t →
          (∀ err,
            c.lib.NewURI (c.lib.NewRewriteURIString (c.u.Origin ++ "?target=" ++ t)) =
              Except.error err →
            r.err.isSome = true ∧ r.effect = Effect.nothing ∧
              ∀ call ∈ r.calls, call.isProcess = false) ∧
          (∀ rw_uri,
            c.lib.NewURI (c.lib.NewRewriteURIString (c.u.Origin ++ "?target=" ++ t)) =
              Except.ok rw_uri →
            ∃ pre rest, r.calls =
                pre ++ Call.ProcessURIWithInstructions rw_uri label
                  (c.lib.EnsureInstructions i) :: rest ∧
              (∀ call ∈ pre, call.isProcess = false) ∧
              (∀ call ∈ rest, call.isProcess = false)))) := by
  obtain ⟨j, hj⟩ := List.getElem?_of_mem hmem
  refine ⟨j, _, hj, taskRun_succ c j _ hj, ?_, ?_⟩
  · intro hd
    simp only
    rw [derivativeTask_plain c label _ hd]
    obtain ⟨rest, h1, h2⟩ := processStep_calls_shape c label (c.lib.EnsureInstructions i) [] c.u
    rw [h1]
    refine ⟨?_, rest, rfl, fun call hc => (h2 call hc).1⟩
    intro call hc
    simp only [List.nil_append, List.mem_cons] at hc
    rcases hc with hc | hc
    · subst hc; rfl
    · exact (h2 call hc).2
  · intro hd
    simp only
    refine ⟨?_, ?_⟩
    · intro err ht
      rw [derivativeTask_target_error c label _ hd err ht]
      exact ⟨rfl, rfl, by simp [Call.isProcess]⟩
    · intro t ht
      refine ⟨?_, ?_⟩
      · intro err hn
        rw [derivativeTask_reparse_error c label _ hd t err ht hn]
        exact ⟨rfl, rfl, by simp [Call.isProcess]⟩
      · intro rw_uri hn
        rw [derivativeTask_rewritten c label _ hd t rw_uri ht hn]
        obtain ⟨rest, h1, h2⟩ := processStep_calls_shape c label (c.lib.EnsureInstructions i)
          [Call.Target (targetOpts label (c.lib.EnsureInstructions i)),
            Call.NewRewriteURIString (c.u.Origin ++ "?target=" ++ t),
            Call.NewURI (c.lib.NewRewriteURIString (c.u.Origin ++ "?target=" ++ t))] rw_uri
        exact ⟨_, rest, h1, by simp [Call.isProcess], fun call hc => (h2 call hc).1⟩

/-! ## The manifest (C1, C2) -/

theorem complete_returns (c : Ctx) (cs : List Choice) (h : Completes c cs) :
    (exec c (init c) cs).returned = some (ParallelProcessURIWithInstructionSet c) := by
  obtain ⟨r, hr⟩ := Option.isSome_iff_exists.1 h
  rw [hr, returned_eq c _ (inv_exec c cs _ (inv_init c)) r hr]

theorem processStep_effect_spec (c : Ctx) (label : Label) (i : IIIFInstructions)
    (calls : List Call) (p : URI) (s : String) (ds : List Int) :
    ((processStep c label i calls p).effect.uri? = some s ∧
        (processStep c label i calls p).effect.dims? = some ds) ↔
      ∃ new_uri im d, c.pr.ProcessURIWithInstructions p label i = Except.ok (new_uri, im) ∧
        im.Dimensions = Except.ok d ∧ s = new_uri.Str ∧ ds = [d.Width, d.Height] := by
  unfold processStep
  cases hp : c.pr.ProcessURIWithInstructions p label i with
  | error err => simp [Effect.uri?]
  | ok res =>
    obtain ⟨new_uri, im⟩ := res
    cases hd : im.Dimensions with
    | error err =>
      simp only [hd, Effect.uri?, Effect.dims?, Except.ok.injEq, Prod.mk.injEq]
      constructor
      · rintro ⟨h, _⟩; cases h
      · rintro ⟨n, m, d, ⟨_, hm⟩, hd', _⟩
        subst hm
        rw [hd] at hd'
        cases hd'
    | ok d =>
      simp only [hd, Effect.uri?, Effect.dims?, Except.ok.injEq, Prod.mk.injEq,
        Option.some.injEq]
      constructor
      · rintro ⟨h1, h2⟩
        exact ⟨new_uri, im, d, ⟨rfl, rfl⟩, hd, h1.symm, h2.symm⟩
      · rintro ⟨n, m, d', ⟨hn, hm⟩, hd', hs, hds⟩
        subst hn hm
        rw [hd] at hd'
        cases hd'
        exact ⟨hs.symm, hds.symm⟩

theorem derivativeTask_effect_spec (c : Ctx) (label : Label) (i : IIIFInstructions)
    (s : String) (ds : List Int) :
    ((derivativeTask c label i).effect.uri? = some s ∧
        (derivativeTask c label i).effect.dims? = some ds) ↔
      ∃ process_uri new_uri im d, (rewriteURI c label i).2 = Except.ok process_uri ∧
        c.pr.ProcessURIWithInstructions process_uri label i = Except.ok (new_uri, im) ∧
        im.Dimensions = Except.ok d ∧ s = new_uri.Str ∧ ds = [d.Width, d.Height] := by
  unfold derivativeTask
  cases hr : rewriteURI c label i with
  | mk calls res =>
    cases res with
    | error msg => simp [Effect.uri?]
    | ok process_uri =>
      simp only [processStep_effect_spec, Except.ok.injEq]
      constructor
      · rintro ⟨n, m, d, h⟩
        exact ⟨process_uri, n, m, d, rfl, h⟩
      · rintro ⟨p, n, m, d, hp, h⟩
        subst hp
        exact ⟨n, m, d, h⟩

theorem effect_uri_dims (e : Effect) :
    (∀ s, e.uri? = some s → ∃ ds, e.dims? = some ds) ∧
      (∀ ds, e.dims? = some ds → ∃ s, e.uri? = some s) := by
  cases e <;> simp [Effect.uri?, Effect.dims?]

theorem find_entry (c : Ctx) (label : Label) (i : IIIFInstructions)
    (hmem : (label, i) ∈ c.instruction_set.entries) :
    c.instruction_set.entries.find? (fun e => e.1 == label) = some (label, i) := by
  cases hf : c.instruction_set.entries.find? (fun e => e.1 == label) with
  | none =>
    have := List.find?_eq_none.1 hf (label, i) hmem
    simp at this
  | some e =>
    have hl : e.1 = label := by simpa using List.find?_some hf
    obtain ⟨j, hj⟩ := List.getElem?_of_mem (List.mem_of_find?_eq_some hf)
    obtain ⟨j', hj'⟩ := List.getElem?_of_mem hmem
    have hjj := label_inj c j j' e (label, i) hj hj' hl.symm
    subst hjj
    rw [hj] at hj'
    exact hj'

theorem succeeds_iff (c : Ctx) (label : Label) (s : String) (ds : List Int) :
    Succeeds c label s ds ↔
      finalUris c label = some s ∧ finalDimensions c label = some ds := by
  unfold Succeeds finalUris finalDimensions
  constructor
  · rintro ⟨i, p, n, m, d, hmem, h⟩
    rw [find_entry c label i hmem]
    simp only [Option.some_bind, entryEffect]
    exact (derivativeTask_effect_spec c label _ s ds).2 ⟨p, n, m, d, h⟩
  · rintro ⟨h1, h2⟩
    cases hf : c.instruction_set.entries.find? (fun e => e.1 == label) with
    | none => rw [hf] at h1; cases h1
    | some e =>
      have hl : e.1 = label := by simpa using List.find?_some hf
      have hmem := List.mem_of_find?_eq_some hf
      rw [hf] at h1 h2
      simp only [Option.some_bind, entryEffect] at h1 h2
      obtain ⟨l, i⟩ := e
      simp only at hl
      subst hl
      obtain ⟨p, n, m, d, h⟩ := (derivativeTask_effect_spec c l _ s ds).1 ⟨h1, h2⟩
      exact ⟨i, p, n, m, d, hmem, h⟩

theorem final_uris_dims (c : Ctx) (label : Label) :
    (∀ s, finalUris c label = some s → ∃ ds, finalDimensions c label = some ds) ∧
      (∀ ds, finalDimensions c label = some ds → ∃ s, finalUris c label = some s) := by
  unfold finalUris finalDimensions
  cases c.instruction_set.entries.find? (fun e => e.1 == label) with
  | none => simp
  | some e => simpa using effect_uri_dims (entryEffect c e)

/-- C1. When a call returns, the manifest holds the maps `uris` and `dimensions`, and for
every label: `uris` has the entry `s` exactly when the label is a key of the instruction
set whose goroutine got through the URI rewrite, the processor and `im.Dimensions()` with
`s` the string of the URI the processor returned; `dimensions` has the entry `ds` exactly
when it did so with `ds` the list of width and height; and a label that did not succeed
has no entry in either map. -/
theorem C1_manifest_entries (c : Ctx) (cs : List Choice) (h : Completes c cs) :
    ∃ m uris dims, (exec c (init c) cs).returned = some (m, none) ∧
      m "uris" = some (Value.uris uris) ∧ m "dimensions" = some (Value.dimensions dims) ∧
      ∀ label : Label,
        (∀ s, uris label = some s ↔ ∃ ds, Succeeds c label s ds) ∧
        (∀ ds, dims label = some ds ↔ ∃ s, Succeeds c label s ds) ∧
        (∀ s ds, Succeeds c label s ds → uris label = some s ∧ dims label = some ds) ∧
        ((¬ ∃ s ds, Succeeds c label s ds) → uris label = none ∧ dims label = none) := by
  refine ⟨_, finalUris c, finalDimensions c, complete_returns c cs h, ?_, ?_, ?_⟩
  · simp [GoMap.set]
  · simp [GoMap.set]
  · intro label
    have hud := final_uris_dims c label
    refine ⟨?_, ?_, ?_, ?_⟩
    · intro s
      constructor
      · intro hs
        obtain ⟨ds, hds⟩ := hud.1 s hs
        exact ⟨ds, (succeeds_iff c label s ds).2 ⟨hs, hds⟩⟩
      · rintro ⟨ds, hsd⟩
        exact ((succeeds_iff c label s ds).1 hsd).1
    · intro ds
      constructor
      · intro hds
        obtain ⟨s, hs⟩ := hud.2 ds hds
        exact ⟨s, (succeeds_iff c label s ds).2 ⟨hs, hds⟩⟩
      · rintro ⟨s, hsd⟩
        exact ((succeeds_iff c label s ds).1 hsd).2
    · intro s ds hsd
      exact (succeeds_iff c label s ds).1 hsd
    · intro hno
      constructor
      · cases hs : finalUris c label with
        | none => rfl
        | some s =>
          obtain ⟨ds, hds⟩ := hud.1 s hs
          exact absurd ⟨s, ds, (succeeds_iff c label s ds).2 ⟨hs, hds⟩⟩ hno
      · cases hds : finalDimensions c label with
        | none => rfl
        | some ds =>
          obtain ⟨s, hs⟩ := hud.2 ds hds
          exact absurd ⟨s, ds, (succeeds_iff c label s ds).2 ⟨hs, hds⟩⟩ hno

theorem paletteLoop_spec (c : Ctx) (im : Image) (calls : List Call) (l : List String)
    (v : Value) :
    (paletteLoop c im calls l).effect.palette? = some v ↔
      "palette" ∈ l ∧ ∃ s, c.lib.NewPaletteService c.cfg.Palette im = Except.ok s ∧
        v = Value.palette s.Value := by
  induction l with
  | nil => simp [paletteLoop, Effect.palette?]
  | cons name rest ih =>
    unfold paletteLoop
    by_cases hn : name = "palette"
    · simp only [hn, if_true, List.mem_cons, true_or, true_and]
      cases hs : c.lib.NewPaletteService c.cfg.Palette im with
      | error err => simp [Effect.palette?]
      | ok s =>
        simp only [Effect.palette?, Option.some.injEq, Except.ok.injEq]
        constructor
        · intro h; exact ⟨s, rfl, h.symm⟩
        · rintro ⟨s', hs', hv⟩; subst hs'; exact hv.symm
    · have hne : ¬ "palette" = name := fun h => hn h.symm
      simp only [hn, if_false, List.mem_cons, hne, false_or]
      exact ih

theorem paletteTask_spec (c : Ctx) (v : Value) :
    (paletteTask c).effect.palette? = some v ↔
      "palette" ∈ c.cfg.ServicesEnable ∧
        ∃ im s, c.driver.NewImageFromConfig c.cfg c.u.Origin = Except.ok im ∧
          c.lib.NewPaletteService c.cfg.Palette im = Except.ok s ∧
          v = Value.palette s.Value := by
  unfold paletteTask
  simp only
  cases hi : c.driver.NewImageFromConfig c.cfg c.u.Origin with
  | error err => simp [Effect.palette?]
  | ok im =>
    simp only [paletteLoop_spec, Except.ok.injEq]
    constructor
    · rintro ⟨he, s, hs, hv⟩
      exact ⟨he, im, s, rfl, hs, hv⟩
    · rintro ⟨he, im', s, him, hs, hv⟩
      subst him
      exact ⟨he, s, hs, hv⟩

/-- C2. When a call returns, the manifest has the key `"palette"` exactly when
`"palette"` is among `cfg.Profile.Services.Enable` and both
`driver.NewImageFromConfig(cfg, u.Origin())` and `NewPaletteService(cfg.Palette, im)`
returned no error; its value is then the service's `Value()`. -/
theorem C2_palette_entry (c : Ctx) (cs : List Choice) (h : Completes c cs) :
    ∃ m, (exec c (init c) cs).returned = some (m, none) ∧
      (∀ v, m "palette" = some v ↔
        "palette" ∈ c.cfg.ServicesEnable ∧
          ∃ im s, c.driver.NewImageFromConfig c.cfg c.u.Origin = Except.ok im ∧
            c.lib.NewPaletteService c.cfg.Palette im = Except.ok s ∧
            v = Value.palette s.Value) ∧
      ((m "palette").isSome = true ↔
        "palette" ∈ c.cfg.ServicesEnable ∧
          ∃ im s, c.driver.NewImageFromConfig c.cfg c.u.Origin = Except.ok im ∧
            c.lib.NewPaletteService c.cfg.Palette im = Except.ok s) := by
  have hm : (ParallelProcessURIWithInstructionSet c).1 "palette" =
      (paletteTask c).effect.palette? := by
    simp [ParallelProcessURIWithInstructionSet, GoMap.set]
  refine ⟨(ParallelProcessURIWithInstructionSet c).1, ?_, ?_, ?_⟩
  · rw [complete_returns c cs h]
    rfl
  · intro v
    rw [hm]
    exact paletteTask_spec c v
  · rw [hm, Option.isSome_iff_exists]
    constructor
    · rintro ⟨v, hv⟩
      obtain ⟨he, im, s, h1, h2, _⟩ := (paletteTask_spec c v).1 hv
      exact ⟨he, im, s, h1, h2⟩
    · rintro ⟨he, im, s, h1, h2⟩
      exact ⟨_, (paletteTask_spec c _).2 ⟨he, im, s, h1, h2, rfl⟩⟩

theorem exec_append (c : Ctx) (s : State) (cs cs' : List Choice) :
    exec c s (cs ++ cs') = exec c (exec c s cs) cs' := by
  induction cs generalizing s with
  | nil => rfl
  | cons ch rest ih =>
    simp only [List.cons_append, exec]
    exact ih _

/-! ## Completion signals, the wait loop and the log (C5, C6, C7) -/

theorem taskRun_bound (c : Ctx) (k : Nat) (r : TaskRun) (h : taskRun c k = some r) :
    k < c.instruction_set.len + 1 := by
  cases k with
  | zero => omega
  | succ j =>
    cases he : c.instruction_set.entries[j]? with
    | none => simp [taskRun, he] at h
    | some e =>
      have := (List.getElem?_eq_some.1 he).1
      simp only [IIIFInstructionSet.len]
      omega

theorem events_cases (c : Ctx) (s : State) (hI : Inv c s) (k : Nat) (r : TaskRun)
    (h : taskRun c k = some r) :
    eventsOf s k = [] ∨ eventsOf s k = errEvents k r ∨
      eventsOf s k = errEvents k r ++ [Event.done k] := by
  have hk : k < s.phases.length := by
    rw [hI.len]
    exact taskRun_bound c k r h
  have := (hI.events k r _ h (List.getElem?_eq_getElem hk)).1
  rw [this]
  cases s.phases[k] <;> simp [expectedEvents]

theorem events_complete (c : Ctx) (s : State) (hI : Inv c s) (h0 : s.remaining = 0) (k : Nat)
    (r : TaskRun) (h : taskRun c k = some r) :
    eventsOf s k = errEvents k r ++ [Event.done k] := by
  have hk : k < s.phases.length := by
    rw [hI.len]
    exact taskRun_bound c k r h
  have hp := List.getElem?_eq_getElem hk
  have hf := all_finished c s hI h0 k _ hp
  have := (hI.events k r _ h hp).1
  rw [this, hf]
  rfl

theorem recv_spec (c : Ctx) (s s' : State) (k : Nat) (h : step? c s (Choice.recv k) = some s') :
    s.returned = none ∧ s.remaining ≠ 0 ∧
      ((s.phases[k]? = some Phase.sendDone ∧ s'.received = s.received ++ [Event.done k] ∧
          s'.remaining + 1 = s.remaining) ∨
        ∃ msg, s.phases[k]? = some (Phase.sendErr msg) ∧
          s'.received = s.received ++ [Event.err k msg] ∧ s'.remaining = s.remaining) := by
  simp only [step?] at h
  split at h
  · cases h
  · rename_i hg
    simp only [Bool.or_eq_true, Option.isSome_iff_ne_none, beq_iff_eq, not_or, ne_eq,
      not_not] at hg
    refine ⟨hg.1, hg.2, ?_⟩
    split at h
    · rename_i msg hp
      cases h
      exact Or.inr ⟨msg, hp, rfl, rfl⟩
    · rename_i hp
      cases h
      refine Or.inl ⟨hp, rfl, ?_⟩
      simp only
      omega
    · cases h

theorem idle_spec (c : Ctx) (s : State) :
    ((step? c s Choice.idle).isSome = true ↔
      s.returned = none ∧ s.remaining ≠ 0 ∧ s.phases.any Phase.blocked = false) ∧
    (∀ s', step? c s Choice.idle = some s' → s' = s) := by
  simp only [step?]
  by_cases hg : (s.returned.isSome || s.remaining == 0) = true
  · simp only [hg, if_true]
    simp only [Bool.or_eq_true, Option.isSome_iff_ne_none, beq_iff_eq, ne_eq] at hg
    refine ⟨?_, by intro s' h; cases h⟩
    constructor
    · intro h; cases h
    · rintro ⟨h1, h2, _⟩
      rcases hg with hg | hg
      · exact absurd h1 hg
      · exact absurd hg h2
  · simp only [hg, if_false]
    simp only [Bool.or_eq_true, Option.isSome_iff_ne_none, beq_iff_eq, ne_eq, not_or,
      not_not] at hg
    by_cases hb : s.phases.any Phase.blocked = true
    · simp only [hb, if_true]
      refine ⟨?_, by intro s' h; cases h⟩
      constructor
      · intro h; cases h
      · rintro ⟨_, _, h3⟩
        cases h3
    · simp only [hb, if_false]
      refine ⟨?_, by intro s' h; cases h; rfl⟩
      constructor
      · intro _
        exact ⟨hg.1, hg.2, trivial⟩
      · intro _; rfl

theorem ret_spec (c : Ctx) (s : State) :
    (step? c s Choice.ret).isSome = true ↔ s.returned = none ∧ s.remaining = 0 := by
  simp only [step?]
  by_cases hg : (s.returned.isSome || s.remaining != 0) = true
  · simp only [hg, if_true]
    simp only [Bool.or_eq_true, Option.isSome_iff_ne_none, bne_iff_ne, ne_eq] at hg
    constructor
    · intro h; cases h
    · rintro ⟨h1, h2⟩
      rcases hg with hg | hg
      · exact absurd h1 hg
      · exact absurd h2 hg
  · simp only [hg, if_false]
    simp only [Bool.or_eq_true, Option.isSome_iff_ne_none, bne_iff_ne, ne_eq, not_or,
      not_not] at hg
    constructor
    · intro _; exact hg
    · intro _; rfl

theorem run_spec (c : Ctx) (s s' : State) (k : Nat) (h : step? c s (Choice.run k) = some s') :
    s'.remaining = s.remaining ∧ s'.received = s.received := by
  simp only [step?] at h
  split at h
  · cases h
    exact ⟨applyEffect_remaining _ _, applyEffect_received _ _⟩
  · cases h

theorem returned_stuck (c : Ctx) (s : State) (hI : Inv c s) (h : s.returned.isSome = true)
    (ch : Choice) : step? c s ch = none := by
  obtain ⟨r, hr⟩ := Option.isSome_iff_exists.1 h
  have h0 := (hI.ret r hr).2
  cases ch with
  | run k =>
    simp only [step?]
    split
    · rename_i r' hp _
      have := all_finished c s hI h0 k _ hp
      cases this
    · rfl
  | recv k => simp [step?, h]
  | idle => simp [step?, h]
  | ret => simp [step?, h]

/-- C6. In every reachable state of a call on an instruction set of size `N`: `remaining`
started at `N + 1` and, added to the number of completion signals received, is still
`N + 1`; the receives caused by one goroutine are nothing, or its error (at most one), or
its error followed by its single completion signal; every receive comes from one of the
`N + 1` goroutines; a loop iteration runs only while `remaining` is not `0`, a received
completion signal lowers `remaining` by one and a received error leaves it; the loop
exits exactly when `remaining` is `0`. When the call has returned, `N + 1` completion
signals were received, one from each goroutine, each after that goroutine's error, and
no further step is enabled. -/
theorem C6_completion_signals (c : Ctx) (cs : List Choice) :
    (init c).remaining = c.instruction_set.len + 1 ∧
    (exec c (init c) cs).remaining + doneCount (exec c (init c) cs) =
      c.instruction_set.len + 1 ∧
    (∀ k r, taskRun c k = some r →
      (errEvents k r).length ≤ 1 ∧
      (eventsOf (exec c (init c) cs) k = [] ∨
        eventsOf (exec c (init c) cs) k = errEvents k r ∨
        eventsOf (exec c (init c) cs) k = errEvents k r ++ [Event.done k])) ∧
    (∀ e ∈ (exec c (init c) cs).received, e.task < c.instruction_set.len + 1) ∧
    (∀ k s', step? c (exec c (init c) cs) (Choice.recv k) = some s' →
      (exec c (init c) cs).remaining ≠ 0 ∧
      ((s'.received = (exec c (init c) cs).received ++ [Event.done k] ∧
          s'.remaining + 1 = (exec c (init c) cs).remaining) ∨
        ∃ msg, s'.received = (exec c (init c) cs).received ++ [Event.err k msg] ∧
          s'.remaining = (exec c (init c) cs).remaining)) ∧
    (∀ k s', step? c (exec c (init c) cs) (Choice.run k) = some s' →
      s'.remaining = (exec c (init c) cs).remaining ∧
        s'.received = (exec c (init c) cs).received) ∧
    ((step? c (exec c (init c) cs) Choice.idle).isSome = true →
      (exec c (init c) cs).remaining ≠ 0) ∧
    ((step? c (exec c (init c) cs) Choice.ret).isSome = true ↔
      (exec c (init c) cs).returned = none ∧ (exec c (init c) cs).remaining = 0) ∧
    (Completes c cs →
      (exec c (init c) cs).remaining = 0 ∧
      doneCount (exec c (init c) cs) = c.instruction_set.len + 1 ∧
      (∀ k r, taskRun c k = some r →
        eventsOf (exec c (init c) cs) k = errEvents k r ++ [Event.done k]) ∧
      ∀ ch, step? c (exec c (init c) cs) ch = none) := by
  have hI := inv_exec c cs _ (inv_init c)
  refine ⟨rfl, hI.cnt, ?_, hI.bound, ?_, ?_, ?_, ret_spec c _, ?_⟩
  · intro k r hr
    refine ⟨?_, events_cases c _ hI k r hr⟩
    unfold errEvents
    cases r.err <;> simp
  · intro k s' h
    obtain ⟨_, h2, h3⟩ := recv_spec c _ s' k h
    refine ⟨h2, ?_⟩
    rcases h3 with ⟨_, h4, h5⟩ | ⟨msg, _, h4, h5⟩
    · exact Or.inl ⟨h4, h5⟩
    · exact Or.inr ⟨msg, h4, h5⟩
  · intro k s' h
    exact run_spec c _ s' k h
  · intro h
    exact ((idle_spec c _).1.1 h).2.1
  · intro h
    obtain ⟨r, hr⟩ := Option.isSome_iff_exists.1 h
    have h0 := (hI.ret r hr).2
    have hc := hI.cnt
    refine ⟨h0, by omega, ?_, fun ch => returned_stuck c _ hI h ch⟩
    intro k r' hr'
    exact events_complete c _ hI h0 k r' hr'

theorem recv_enabled_iff (c : Ctx) (s : State) (k : Nat) :
    (step? c s (Choice.recv k)).isSome = true ↔
      s.returned = none ∧ s.remaining ≠ 0 ∧ ∃ p, s.phases[k]? = some p ∧ p.blocked = true := by
  simp only [step?]
  by_cases hg : (s.returned.isSome || s.remaining == 0) = true
  · simp only [hg, if_true]
    simp only [Bool.or_eq_true, Option.isSome_iff_ne_none, beq_iff_eq, ne_eq] at hg
    constructor
    · intro h; cases h
    · rintro ⟨h1, h2, _⟩
      rcases hg with hg | hg
      · exact absurd h1 hg
      · exact absurd hg h2
  · simp only [hg, if_false]
    simp only [Bool.or_eq_true, Option.isSome_iff_ne_none, beq_iff_eq, ne_eq, not_or,
      not_not] at hg
    cases hp : s.phases[k]? with
    | none => simp
    | some p => cases p <;> simp [hg.1, hg.2, Phase.blocked]

theorem logged_append (s s' : State) (e : Event) (h : s'.received = s.received ++ [e]) :
    logged s' = logged s ++ (e.msg?).toList := by
  unfold logged
  rw [h, List.filterMap_append]
  cases e <;> simp [Event.msg?]

theorem logged_sent (c : Ctx) (s : State) (hI : Inv c s) (msg : String)
    (h : msg ∈ logged s) : ∃ k r, taskRun c k = some r ∧ r.err = some msg := by
  unfold logged at h
  obtain ⟨e, he, hm⟩ := List.mem_filterMap.1 h
  cases e with
  | done k => simp [Event.msg?] at hm
  | err k m =>
    simp only [Event.msg?, Option.some.injEq] at hm
    subst hm
    have hk := hI.bound _ he
    obtain ⟨r, hr⟩ := taskRun_defined c k hk
    refine ⟨k, r, hr, ?_⟩
    have hin : Event.err k m ∈ eventsOf s k := by
      unfold eventsOf
      exact List.mem_filter.2 ⟨he, by simp [Event.task]⟩
    have hin' : Event.err k m ∈ errEvents k r ++ [Event.done k] := by
      rcases events_cases c s hI k r hr with h1 | h1 | h1
      · rw [h1] at hin; cases hin
      · rw [h1] at hin; exact List.mem_append_left _ hin
      · rw [h1] at hin; exact hin
    unfold errEvents at hin'
    cases hre : r.err with
    | none => simp [hre] at hin'
    | some m' =>
      simp [hre] at hin'
      rw [hin']

theorem processStepRaw_toRaw (c : Ctx) (label : Label) (i : IIIFInstructions)
    (calls : List Call) (p : URI) :
    processStepRaw c c.pr.toRaw label i calls p =
      BodyEnd.done (processStep c label i calls p) := by
  unfold processStepRaw processStep Processor.toRaw
  simp only
  cases hp : c.pr.ProcessURIWithInstructions p label i with
  | error err => rfl
  | ok res =>
    obtain ⟨new_uri, im⟩ := res
    simp only
    cases im.Dimensions <;> rfl

theorem err_logged (c : Ctx) (s : State) (hI : Inv c s) (h0 : s.remaining = 0) (k : Nat)
    (r : TaskRun) (hr : taskRun c k = some r) (msg : String) (he : r.err = some msg) :
    msg ∈ logged s := by
  have hev := events_complete c s hI h0 k r hr
  have hin : Event.err k msg ∈ eventsOf s k := by
    rw [hev]
    simp [errEvents, he]
  have hrec : Event.err k msg ∈ s.received := (List.mem_filter.1 hin).1
  unfold logged
  exact List.mem_filterMap.2 ⟨_, hrec, rfl⟩

theorem paletteLoop_err (c : Ctx) (im : Image) (calls : List Call) (l : List String)
    (err : String) (hl : "palette" ∈ l)
    (hs : c.lib.NewPaletteService c.cfg.Palette im = Except.error err) :
    (paletteLoop c im calls l).err =
      some ("failed to derive palette for " ++ c.u.Str ++ " : " ++ err) := by
  induction l with
  | nil => simp at hl
  | cons name rest ih =>
    unfold paletteLoop
    by_cases hn : name = "palette"
    · simp [hn, hs]
    · have hne : ¬ "palette" = name := fun h => hn h.symm
      simp only [List.mem_cons, hne, false_or] at hl
      simp only [hn, if_false]
      exact ih hl

theorem paletteTask_open_err (c : Ctx) (err : String)
    (h : c.driver.NewImageFromConfig c.cfg c.u.Origin = Except.error err) :
    (paletteTask c).err =
      some ("failed to derive palette for " ++ c.u.Str ++ " : " ++ err) := by
  unfold paletteTask
  simp [h]

theorem paletteTask_service_err (c : Ctx) (im : Image) (err : String)
    (h : c.driver.NewImageFromConfig c.cfg c.u.Origin = Except.ok im)
    (hl : "palette" ∈ c.cfg.ServicesEnable)
    (hs : c.lib.NewPaletteService c.cfg.Palette im = Except.error err) :
    (paletteTask c).err =
      some ("failed to derive palette for " ++ c.u.Str ++ " : " ++ err) := by
  unfold paletteTask
  simp only [h]
  exact paletteLoop_err c im _ _ err hl hs

theorem derivativeTask_process_err (c : Ctx) (label : Label) (i : IIIFInstructions)
    (p : URI) (err : String) (hr : (rewriteURI c label i).2 = Except.ok p)
    (hp : c.pr.ProcessURIWithInstructions p label i = Except.error err) :
    (derivativeTask c label i).err =
      some ("failed to process " ++ c.u.Str ++ " (" ++ label ++ ") : " ++ err) := by
  unfold derivativeTask
  cases hrw : rewriteURI c label i with
  | mk calls res =>
    rw [hrw] at hr
    simp only at hr
    subst hr
    simp [processStep, hp]

theorem derivativeTask_dimensions_err (c : Ctx) (label : Label) (i : IIIFInstructions)
    (p new_uri : URI) (im : Image) (err : String)
    (hr : (rewriteURI c label i).2 = Except.ok p)
    (hp : c.pr.ProcessURIWithInstructions p label i = Except.ok (new_uri, im))
    (hd : im.Dimensions = Except.error err) :
    (derivativeTask c label i).err =
      some ("failed to process " ++ c.u.Str ++ " (" ++ label ++ ") : " ++ err) := by
  unfold derivativeTask
  cases hrw : rewriteURI c label i with
  | mk calls res =>
    rw [hrw] at hr
    simp only at hr
    subst hr
    simp [processStep, hp, hd]

/-- C5, as the code has it. For a processor that returns a usable URI and image whenever
it returns no error (the record `Processor`; through `toRaw` the body of a derivative
goroutine never panics): every call can run to its return within
`3 * (len(instruction_set) + 1) + 1` scheduler steps; every run so far can be continued
to the return; every enabled step other than an iteration through `default` lowers a
measure that starts at `3 * (len(instruction_set) + 1) + 1`, so only such iterations can
delay the return; whenever the call returns the error is `nil` and the manifest has the
keys `"uris"` and `"dimensions"`, whatever the driver, the processor and the other
collaborators answer; and by then the failure of every goroutine has been logged, once,
with its message (the driver cannot open the image, the palette service fails,
`u.Target` fails, the rewritten URI does not parse, the processor fails,
`im.Dimensions()` fails), and nothing else has been logged. -/
theorem C5_returns_nil_error (c : Ctx) :
    (∃ cs, cs.length ≤ 3 * (c.instruction_set.len + 1) + 1 ∧ Completes c cs) ∧
    (∀ cs, ∃ cs', Completes c (cs ++ cs')) ∧
    measure (init c) = 3 * (c.instruction_set.len + 1) + 1 ∧
    (∀ cs ch s', step? c (exec c (init c) cs) ch = some s' →
      (ch = Choice.idle ∧ s' = exec c (init c) cs) ∨
        (ch ≠ Choice.idle ∧ measure s' < measure (exec c (init c) cs))) ∧
    (∀ cs, Completes c cs →
      ∃ m uris dims, (exec c (init c) cs).returned = some (m, none) ∧
        m "uris" = some (Value.uris uris) ∧
        m "dimensions" = some (Value.dimensions dims)) ∧
    (∀ cs, Completes c cs →
      (∀ err, c.driver.NewImageFromConfig c.cfg c.u.Origin = Except.error err →
        ("failed to derive palette for " ++ c.u.Str ++ " : " ++ err) ∈
          logged (exec c (init c) cs)) ∧
      (∀ im err, c.driver.NewImageFromConfig c.cfg c.u.Origin = Except.ok im →
        "palette" ∈ c.cfg.ServicesEnable →
        c.lib.NewPaletteService c.cfg.Palette im = Except.error err →
        ("failed to derive palette for " ++ c.u.Str ++ " : " ++ err) ∈
          logged (exec c (init c) cs)) ∧
      (∀ label i, (label, i) ∈ c.instruction_set.entries →
        (∀ err, c.u.Driver = "idsecret" →
          c.u.Target (targetOpts label (c.lib.EnsureInstructions i)) = Except.error err →
          ("failed to derive target " ++ c.u.Str ++ " (" ++ label ++ ") : " ++ err) ∈
            logged (exec c (init c) cs)) ∧
        (∀ t err, c.u.Driver = "idsecret" →
          c.u.Target (targetOpts label (c.lib.EnsureInstructions i)) = Except.ok t →
          c.lib.NewURI (c.lib.NewRewriteURIString (c.u.Origin ++ "?target=" ++ t)) =
            Except.error err →
          ("failed to generate rewrite URL " ++ c.u.Str ++ " (" ++ label ++ ") : " ++ err) ∈
            logged (exec c (init c) cs)) ∧
        (∀ p err, (rewriteURI c label (c.lib.EnsureInstructions i)).2 = Except.ok p →
          c.pr.ProcessURIWithInstructions p label (c.lib.EnsureInstructions i) =
            Except.error err →
          ("failed to process " ++ c.u.Str ++ " (" ++ label ++ ") : " ++ err) ∈
            logged (exec c (init c) cs)) ∧
        (∀ p new_uri im err,
          (rewriteURI c label (c.lib.EnsureInstructions i)).2 = Except.ok p →
          c.pr.ProcessURIWithInstructions p label (c.lib.EnsureInstructions i) =
            Except.ok (new_uri, im) →
          im.Dimensions = Except.error err →
          ("failed to process " ++ c.u.Str ++ " (" ++ label ++ ") : " ++ err) ∈
            logged (exec c (init c) cs))) ∧
      (∀ msg ∈ logged (exec c (init c) cs), ∃ k r, taskRun c k = some r ∧ r.err = some msg) ∧
      (∀ k r, taskRun c k = some r →
        (eventsOf (exec c (init c) cs) k).filterMap Event.msg? = r.err.toList)) ∧
    (∀ label i calls p,
      processStepRaw c c.pr.toRaw label i calls p =
        BodyEnd.done (processStep c label i calls p)) := by
  refine ⟨?_, ?_, measure_init c, fun cs ch s' h => step_measure c _ s' ch h, ?_, ?_,
    fun label i calls p => processStepRaw_toRaw c label i calls p⟩
  · obtain ⟨cs, hlen, hc⟩ := exists_complete c _ (init c) (inv_init c) (le_of_eq (measure_init c))
    exact ⟨cs, hlen, hc⟩
  · intro cs
    obtain ⟨cs', _, hc⟩ := exists_complete c _ (exec c (init c) cs)
      (inv_exec c cs _ (inv_init c)) (le_refl _)
    refine ⟨cs', ?_⟩
    unfold Completes
    rw [exec_append]
    exact hc
  · intro cs h
    exact ⟨_, finalUris c, finalDimensions c, complete_returns c cs h,
      by simp [GoMap.set], by simp [GoMap.set]⟩
  · intro cs h
    have hI := inv_exec c cs _ (inv_init c)
    obtain ⟨r0, hr0⟩ := Option.isSome_iff_exists.1 h
    have h0 := (hI.ret r0 hr0).2
    refine ⟨?_, ?_, ?_, fun msg hm => logged_sent c _ hI msg hm, ?_⟩
    · intro err he
      exact err_logged c _ hI h0 0 _ rfl _ (paletteTask_open_err c err he)
    · intro im err him hl hs
      exact err_logged c _ hI h0 0 _ rfl _ (paletteTask_service_err c im err him hl hs)
    · intro label i hmem
      obtain ⟨j, hj⟩ := List.getElem?_of_mem hmem
      have ht := taskRun_succ c j _ hj
      refine ⟨?_, ?_, ?_, ?_⟩
      · intro err hd hte
        refine err_logged c _ hI h0 (j + 1) _ ht _ ?_
        simp only
        rw [derivativeTask_target_error c label _ hd err hte]
      · intro t err hd hte hn
        refine err_logged c _ hI h0 (j + 1) _ ht _ ?_
        simp only
        rw [derivativeTask_reparse_error c label _ hd t err hte hn]
      · intro p err hrw hp
        exact err_logged c _ hI h0 (j + 1) _ ht _
          (derivativeTask_process_err c label _ p err hrw hp)
      · intro p new_uri im err hrw hp hd
        exact err_logged c _ hI h0 (j + 1) _ ht _
          (derivativeTask_dimensions_err c label _ p new_uri im err hrw hp hd)
    · intro k r hr
      rw [events_complete c _ hI h0 k r hr]
      unfold errEvents
      cases r.err <;> simp [Event.msg?]

/-- C5 as claimed fails: a processor that returns a nil image with no error makes the
goroutine of label `"o"` panic at `im.Dimensions()`; nothing recovers the panic, so the
process ends and the call returns nothing. -/
theorem C5_nil_image_panics :
    processStepRaw exCtx exNilProcessor "o"
        (exCtx.lib.EnsureInstructions ⟨"full", "full", "0", "color", ""⟩) [] exCtx.u =
      BodyEnd.panic [Call.ProcessURIWithInstructions exCtx.u "o"
        (exCtx.lib.EnsureInstructions ⟨"full", "full", "0", "color", ""⟩)] ∧
    ¬ (∀ (c : Ctx) (raw : RawProcessor) (label : Label) (i : IIIFInstructions)
        (calls : List Call) (p : URI), ∃ r, processStepRaw c raw label i calls p =
          BodyEnd.done r) := by
  have h : processStepRaw exCtx exNilProcessor "o"
        (exCtx.lib.EnsureInstructions ⟨"full", "full", "0", "color", ""⟩) [] exCtx.u =
      BodyEnd.panic [Call.ProcessURIWithInstructions exCtx.u "o"
        (exCtx.lib.EnsureInstructions ⟨"full", "full", "0", "color", ""⟩)] := rfl
  refine ⟨h, ?_⟩
  intro hall
  obtain ⟨r, hr⟩ := hall exCtx exNilProcessor "o"
    (exCtx.lib.EnsureInstructions ⟨"full", "full", "0", "color", ""⟩) [] exCtx.u
  rw [h] at hr
  cases hr

/-- C7, as the code has it. An iteration of the wait loop does one of three things: it
receives a completion signal and lowers `remaining` by one; or it receives an error and
logs it; or, exactly when no goroutine is blocked in a send, it takes `default` and leaves
the state unchanged, so the loop busy-waits. An iteration receives from a goroutine
exactly when that goroutine is blocked in a send. Every logged line is an error some
goroutine sent, and when the call has returned the error of every failing goroutine has
been logged, once. -/
theorem C7_wait_loop_iterations (c : Ctx) (cs : List Choice) :
    (∀ k s', step? c (exec c (init c) cs) (Choice.recv k) = some s' →
      (s'.remaining + 1 = (exec c (init c) cs).remaining ∧
          logged s' = logged (exec c (init c) cs)) ∨
        ∃ msg, s'.remaining = (exec c (init c) cs).remaining ∧
          logged s' = logged (exec c (init c) cs) ++ [msg]) ∧
    (∀ k, (step? c (exec c (init c) cs) (Choice.recv k)).isSome = true ↔
      (exec c (init c) cs).returned = none ∧ (exec c (init c) cs).remaining ≠ 0 ∧
        ∃ p, (exec c (init c) cs).phases[k]? = some p ∧ p.blocked = true) ∧
    ((step? c (exec c (init c) cs) Choice.idle).isSome = true ↔
      (exec c (init c) cs).returned = none ∧ (exec c (init c) cs).remaining ≠ 0 ∧
        (exec c (init c) cs).phases.any Phase.blocked = false) ∧
    (∀ s', step? c (exec c (init c) cs) Choice.idle = some s' → s' = exec c (init c) cs) ∧
    (∀ msg ∈ logged (exec c (init c) cs), ∃ k r, taskRun c k = some r ∧ r.err = some msg) ∧
    (Completes c cs → ∀ k r, taskRun c k = some r →
      (eventsOf (exec c (init c) cs) k).filterMap Event.msg? = r.err.toList) := by
  have hI := inv_exec c cs _ (inv_init c)
  refine ⟨?_, recv_enabled_iff c _, (idle_spec c _).1, (idle_spec c _).2,
    fun msg h => logged_sent c _ hI msg h, ?_⟩
  · intro k s' h
    obtain ⟨_, _, h3⟩ := recv_spec c _ s' k h
    rcases h3 with ⟨_, h4, h5⟩ | ⟨msg, _, h4, h5⟩
    · left
      exact ⟨h5, by rw [logged_append _ s' _ h4]; simp [Event.msg?]⟩
    · right
      exact ⟨msg, h5, by rw [logged_append _ s' _ h4]; simp [Event.msg?]⟩
  · intro h k r hr
    obtain ⟨r0, hr0⟩ := Option.isSome_iff_exists.1 h
    have h0 := (hI.ret r0 hr0).2
    rw [events_complete c _ hI h0 k r hr]
    unfold errEvents
    cases r.err <;> simp [Event.msg?]

/-- C7 as claimed fails: in the initial state of a concrete call an iteration of the wait
loop is enabled that neither lowers `remaining` nor logs anything; it leaves the state as
it is. -/
theorem C7_idle_iteration_changes_nothing :
    step? exCtx (init exCtx) Choice.idle = some (init exCtx) ∧
    ¬ (∀ (c : Ctx) (cs : List Choice) (ch : Choice) (s' : State),
        (ch = Choice.idle ∨ ∃ k, ch = Choice.recv k) →
        step? c (exec c (init c) cs) ch = some s' →
        s'.remaining < (exec c (init c) cs).remaining ∨
          (logged (exec c (init c) cs)).length < (logged s').length) := by
  have h : step? exCtx (init exCtx) Choice.idle = some (init exCtx) := rfl
  refine ⟨h, ?_⟩
  intro hall
  have := hall exCtx [] Choice.idle (init exCtx) (Or.inl rfl) h
  simp [exec, init, logged] at this

/-! ## The batch runner (C8, C9, C10) -/

/-- The manifest of one source of a batch. -/
theorem manifest_of_run (env : Env) (opts : ProcessOptions) (uri : URI) (cs : List Choice)
    (h : Completes
      ⟨env.lib, opts.Config, opts.Driver, opts.Processor, opts.Instructions, uri⟩ cs) :
    (exec ⟨env.lib, opts.Config, opts.Driver, opts.Processor, opts.Instructions, uri⟩
        (init ⟨env.lib, opts.Config, opts.Driver, opts.Processor, opts.Instructions, uri⟩)
        cs).returned =
      some ((ParallelProcessURIWithInstructionSet
        ⟨env.lib, opts.Config, opts.Driver, opts.Processor, opts.Instructions, uri⟩).1,
        none) :=
  complete_returns _ cs h

theorem processLoop_spec (env : Env) (opts : ProcessOptions) (uris : List URI) (st : Loop)
    (h : st.early = none) :
    (processLoop env opts uris st).early = none ∧
    (processLoop env opts uris st).calls = st.calls ++ uris.map (fun u =>
      (⟨env.lib, opts.Config, opts.Driver, opts.Processor, opts.Instructions, u⟩ : Ctx)) ∧
    (processLoop env opts uris st).spawned = st.spawned ++
      (if opts.Report then
        uris.map (fun u => (filepathJoin u.Origin opts.ReportName,
          (ParallelProcessURIWithInstructionSet
              ⟨env.lib, opts.Config, opts.Driver, opts.Processor, opts.Instructions, u⟩).1))
      else []) ∧
    (∀ key, (processLoop env opts uris st).results key =
      match uris.reverse.find? (fun u => u.Origin == key) with
      | some u => some (ParallelProcessURIWithInstructionSet
          ⟨env.lib, opts.Config, opts.Driver, opts.Processor, opts.Instructions, u⟩).1
      | none => st.results key) := by
  induction uris generalizing st with
  | nil =>
    refine ⟨h, by simp [processLoop], ?_, by simp [processLoop]⟩
    cases opts.Report <;> simp [processLoop]
  | cons uri rest ih =>
    have herr : (ParallelProcessURIWithInstructionSet
        ⟨env.lib, opts.Config, opts.Driver, opts.Processor, opts.Instructions, uri⟩).2 = none := rfl
    have hpair : ParallelProcessURIWithInstructionSet
        ⟨env.lib, opts.Config, opts.Driver, opts.Processor, opts.Instructions, uri⟩ =
        ((ParallelProcessURIWithInstructionSet
            ⟨env.lib, opts.Config, opts.Driver, opts.Processor, opts.Instructions, uri⟩).1, none) := rfl
    have hstep : ∃ st' : Loop, st'.early = none ∧
        st'.results = st.results.set uri.Origin
          (ParallelProcessURIWithInstructionSet
              ⟨env.lib, opts.Config, opts.Driver, opts.Processor, opts.Instructions, uri⟩).1 ∧
        st'.calls = st.calls ++ [
            ⟨env.lib, opts.Config, opts.Driver, opts.Processor, opts.Instructions, uri⟩] ∧
        st'.spawned =
          (if opts.Report then
            st.spawned ++ [(filepathJoin uri.Origin opts.ReportName,
              (ParallelProcessURIWithInstructionSet
                  ⟨env.lib, opts.Config, opts.Driver, opts.Processor, opts.Instructions, uri⟩).1)]
          else st.spawned) ∧
        processLoop env opts (uri :: rest) st = processLoop env opts rest st' := by
      refine ⟨⟨st.results.set uri.Origin
          (ParallelProcessURIWithInstructionSet
              ⟨env.lib, opts.Config, opts.Driver, opts.Processor, opts.Instructions, uri⟩).1,
        st.calls ++ [⟨env.lib, opts.Config, opts.Driver, opts.Processor, opts.Instructions, uri⟩],
        (if opts.Report then
            st.spawned ++ [(filepathJoin uri.Origin opts.ReportName,
              (ParallelProcessURIWithInstructionSet
                  ⟨env.lib, opts.Config, opts.Driver, opts.Processor, opts.Instructions, uri⟩).1)]
          else st.spawned), st.early⟩, h, rfl, rfl, rfl, ?_⟩
      rw [processLoop, hpair]
      cases opts.Report <;> rfl
    obtain ⟨st', he, hr, hc, hs, heq⟩ := hstep
    rw [heq]
    obtain ⟨h1, h2, h3, h4⟩ := ih st' he
    refine ⟨h1, ?_, ?_, ?_⟩
    · rw [h2, hc]; simp
    · rw [h3, hs]
      cases opts.Report <;> simp
    · intro key
      rw [h4 key, List.reverse_cons, List.find?_append, hr]
      cases hf : rest.reverse.find? (fun u => u.Origin == key) with
      | some u => simp
      | none =>
        by_cases hk : uri.Origin = key
        · simp [GoMap.set, hk]
        · have hk' : ¬ key = uri.Origin := fun h => hk h.symm
          simp [GoMap.set, hk, hk']

theorem ProcessMany_fields (env : Env) (opts : ProcessOptions) (uris : List URI) :
    (ProcessMany env opts uris).results =
        (processLoop env opts uris ⟨GoMap.empty, [], [], none⟩).results ∧
    (ProcessMany env opts uris).calls =
        (processLoop env opts uris ⟨GoMap.empty, [], [], none⟩).calls ∧
    (ProcessMany env opts uris).spawned =
        (processLoop env opts uris ⟨GoMap.empty, [], [], none⟩).spawned ∧
    (ProcessMany env opts uris).writes =
        (processLoop env opts uris ⟨GoMap.empty, [], [], none⟩).spawned.filterMap
          (fun job => (report_processing env opts.Config job.1 job.2).1) ∧
    (ProcessMany env opts uris).err =
        (match env.json.MarshalBatch
            (processLoop env opts uris ⟨GoMap.empty, [], [], none⟩).results with
          | Except.error err => some err
          | Except.ok _ => none) ∧
    (ProcessMany env opts uris).stdout =
        (match env.json.MarshalBatch
            (processLoop env opts uris ⟨GoMap.empty, [], [], none⟩).results with
          | Except.error _ => none
          | Except.ok enc => some enc) := by
  have he := (processLoop_spec env opts uris ⟨GoMap.empty, [], [], none⟩ rfl).1
  unfold ProcessMany
  simp only [he]
  cases env.json.MarshalBatch (processLoop env opts uris ⟨GoMap.empty, [], [], none⟩).results <;>
    simp

theorem results_spec (env : Env) (opts : ProcessOptions) (uris : List URI) (key : String) :
    (ProcessMany env opts uris).results key =
      (uris.reverse.find? (fun u => u.Origin == key)).map
        (fun u => (ParallelProcessURIWithInstructionSet
            ⟨env.lib, opts.Config, opts.Driver, opts.Processor, opts.Instructions, u⟩).1) := by
  rw [(ProcessMany_fields env opts uris).1,
    (processLoop_spec env opts uris ⟨GoMap.empty, [], [], none⟩ rfl).2.2.2 key]
  cases uris.reverse.find? (fun u => u.Origin == key) <;> simp [GoMap.empty]

/-- C10. `ProcessMany` calls the orchestrator once per source, in input order, each time
with `opts.Config, opts.Driver, opts.Processor, opts.Instructions` and that source; the
batch report maps an origin to the manifest the orchestrator returns for the last source
with that origin and has no other key; when the origins are pairwise distinct every
source has its own entry, which is the manifest of the call made on that source. -/
theorem C10_batch_report (env : Env) (opts : ProcessOptions) (uris : List URI) :
    (ProcessMany env opts uris).calls =
      uris.map (fun u =>
        (⟨env.lib, opts.Config, opts.Driver, opts.Processor, opts.Instructions, u⟩ : Ctx)) ∧
    (∀ key, (ProcessMany env opts uris).results key =
      (uris.reverse.find? (fun u => u.Origin == key)).map
        (fun u => (ParallelProcessURIWithInstructionSet
          ⟨env.lib, opts.Config, opts.Driver, opts.Processor, opts.Instructions, u⟩).1)) ∧
    (∀ key, key ∉ uris.map URI.Origin → (ProcessMany env opts uris).results key = none) ∧
    ((uris.map URI.Origin).Nodup → ∀ u ∈ uris,
      (ProcessMany env opts uris).results u.Origin =
        some (ParallelProcessURIWithInstructionSet
          ⟨env.lib, opts.Config, opts.Driver, opts.Processor, opts.Instructions, u⟩).1) ∧
    (∀ u cs,
      Completes ⟨env.lib, opts.Config, opts.Driver, opts.Processor, opts.Instructions, u⟩ cs →
      (exec ⟨env.lib, opts.Config, opts.Driver, opts.Processor, opts.Instructions, u⟩
          (init ⟨env.lib, opts.Config, opts.Driver, opts.Processor, opts.Instructions, u⟩)
          cs).returned =
        some ((ParallelProcessURIWithInstructionSet
          ⟨env.lib, opts.Config, opts.Driver, opts.Processor, opts.Instructions, u⟩).1,
          none)) := by
  refine ⟨?_, results_spec env opts uris, ?_, ?_, fun u cs h => manifest_of_run env opts u cs h⟩
  · rw [(ProcessMany_fields env opts uris).2.1,
      (processLoop_spec env opts uris ⟨GoMap.empty, [], [], none⟩ rfl).2.1]
    rfl
  · intro key hk
    rw [results_spec]
    cases hf : uris.reverse.find? (fun u => u.Origin == key) with
    | none => rfl
    | some u =>
      have hu : u ∈ uris := List.mem_reverse.1 (List.mem_of_find?_eq_some hf)
      have hko : u.Origin = key := by simpa using List.find?_some hf
      exact absurd (List.mem_map.2 ⟨u, hu, hko⟩) hk
  · intro hn u hu
    rw [results_spec]
    cases hf : uris.reverse.find? (fun v => v.Origin == u.Origin) with
    | none =>
      have := List.find?_eq_none.1 hf u (List.mem_reverse.2 hu)
      simp at this
    | some v =>
      have hv : v ∈ uris := List.mem_reverse.1 (List.mem_of_find?_eq_some hf)
      have hvo : v.Origin = u.Origin := by simpa using List.find?_some hf
      have : v = u := List.inj_on_of_nodup_map hn hv hu hvo
      rw [this]
      rfl

/-- C9. The returned error, the batch report and the printed line of `ProcessMany` do
not depend on the cache constructors, on what `Set` answers, on the encoding of the single
manifests, or on whether reports are written at all: whatever fails while a report is
persisted, they are what they are when every report write succeeds. The returned error is
`nil` exactly when the final encoding succeeds. -/
theorem C9_report_failure_absorbed (env : Env) (opts : ProcessOptions) (uris : List URI)
    (cache : CacheLib) (marshal : Manifest → Except String String) (report : Bool)
    (reportName : String) :
    (ProcessMany ⟨env.lib, cache, ⟨marshal, env.json.MarshalBatch⟩⟩
        { opts with Report := report, ReportName := reportName } uris).err =
      (ProcessMany env opts uris).err ∧
    (ProcessMany ⟨env.lib, cache, ⟨marshal, env.json.MarshalBatch⟩⟩
        { opts with Report := report, ReportName := reportName } uris).results =
      (ProcessMany env opts uris).results ∧
    (ProcessMany ⟨env.lib, cache, ⟨marshal, env.json.MarshalBatch⟩⟩
        { opts with Report := report, ReportName := reportName } uris).stdout =
      (ProcessMany env opts uris).stdout ∧
    ((ProcessMany env opts uris).err = none ↔
      ∃ enc, env.json.MarshalBatch (ProcessMany env opts uris).results = Except.ok enc) := by
  have hres : (ProcessMany ⟨env.lib, cache, ⟨marshal, env.json.MarshalBatch⟩⟩
        { opts with Report := report, ReportName := reportName } uris).results =
      (ProcessMany env opts uris).results := by
    funext key
    rw [results_spec, results_spec]
  have h1 := ProcessMany_fields env opts uris
  have h2 := ProcessMany_fields ⟨env.lib, cache, ⟨marshal, env.json.MarshalBatch⟩⟩
    { opts with Report := report, ReportName := reportName } uris
  refine ⟨?_, hres, ?_, ?_⟩
  · rw [h2.2.2.2.2.1, h1.2.2.2.2.1, ← h2.1, ← h1.1, hres]
  · rw [h2.2.2.2.2.2, h1.2.2.2.2.2, ← h2.1, ← h1.1, hres]
  · rw [h1.2.2.2.2.1, ← h1.1]
    cases env.json.MarshalBatch (ProcessMany env opts uris).results <;> simp

theorem splitSlash_ne_nil (l : List Char) : splitSlash l ≠ [] := by
  cases l with
  | nil => simp [splitSlash]
  | cons ch rest =>
    unfold splitSlash
    split
    · simp
    · split <;> simp

theorem splitSlash_append (x y : List Char) :
    splitSlash (x ++ '/' :: y) = splitSlash x ++ splitSlash y := by
  induction x with
  | nil => simp [splitSlash]
  | cons ch rest ih =>
    by_cases hc : ch = '/'
    · simp [splitSlash, hc, ih]
    · simp only [List.cons_append, splitSlash, hc, if_false, List.append_eq]
      rw [ih]
      cases hs : splitSlash rest with
      | nil => exact absurd hs (splitSlash_ne_nil rest)
      | cons w ws => rfl

theorem joinSlash_cons (w : List Char) (ws : List (List Char)) (h : ws ≠ []) :
    joinSlash (w :: ws) = w ++ '/' :: joinSlash ws := by
  cases ws with
  | nil => exact absurd rfl h
  | cons v vs => rfl

theorem joinSlash_splitSlash (l : List Char) : joinSlash (splitSlash l) = l := by
  induction l with
  | nil => rfl
  | cons ch rest ih =>
    by_cases hc : ch = '/'
    · simp only [splitSlash, hc, if_true]
      rw [joinSlash_cons _ _ (splitSlash_ne_nil rest), ih]
      rfl
    · simp only [splitSlash, hc, if_false]
      cases hs : splitSlash rest with
      | nil => exact absurd hs (splitSlash_ne_nil rest)
      | cons w ws =>
        rw [hs] at ih
        cases ws with
        | nil =>
          simp only [joinSlash] at ih ⊢
          rw [ih]
        | cons v vs =>
          simp only [joinSlash] at ih ⊢
          rw [← ih]
          rfl

theorem cleanStep_plain (rooted : Bool) (kept : List (List Char)) (w : List Char)
    (h : plainElem w = true) : cleanStep rooted kept w = w :: kept := by
  simp only [plainElem, Bool.and_eq_true, Bool.not_eq_true', beq_eq_false_iff_ne, ne_eq] at h
  unfold cleanStep
  simp [h.1.1, h.1.2, h.2]

theorem foldl_cleanStep_plain (rooted : Bool) (comps kept : List (List Char))
    (h : comps.all plainElem = true) :
    comps.foldl (cleanStep rooted) kept = comps.reverse ++ kept := by
  induction comps generalizing kept with
  | nil => rfl
  | cons w ws ih =>
    simp only [List.all_cons, Bool.and_eq_true] at h
    simp only [List.foldl_cons, cleanStep_plain rooted kept w h.1, ih _ h.2,
      List.reverse_cons, List.append_assoc, List.singleton_append]

theorem cleanChars_plain (path : List Char) (h : (splitSlash path).all plainElem = true) :
    cleanChars path = path := by
  have hne : path ≠ [] := by
    intro hp
    subst hp
    simp [splitSlash, plainElem] at h
  have hroot : (path.head? == some '/') = false := by
    cases path with
    | nil => exact absurd rfl hne
    | cons ch rest =>
      by_cases hc : ch = '/'
      · subst hc
        simp [splitSlash, plainElem] at h
      · simp [hc]
  unfold cleanChars
  simp only [hroot, foldl_cleanStep_plain false _ [] h, List.append_nil, List.reverse_reverse,
    joinSlash_splitSlash, Bool.false_eq_true, if_false, List.nil_append, hne]

/-- On relative paths that are already clean, `filepath.Join` puts a slash in between. -/
theorem filepathJoin_clean (a b : String) (ha : CleanRelative a) (hb : CleanRelative b) :
    filepathJoin a b = a ++ "/" ++ b := by
  have hane : a ≠ "" := by
    intro h
    subst h
    revert ha
    decide
  unfold filepathJoin filepathClean
  simp only [ne_eq, hane, not_false_eq_true, if_true]
  have hdata : (a ++ "/" ++ b).data = a.data ++ '/' :: b.data := by
    simp [String.data_append]
  have hall : (splitSlash (a ++ "/" ++ b).data).all plainElem = true := by
    rw [hdata, splitSlash_append, List.all_append, Bool.and_eq_true]
    exact ⟨ha, hb⟩
  rw [cleanChars_plain _ hall]

theorem report_processing_write (env : Env) (cfg : Config) (key : String) (rsp : Manifest) :
    (report_processing env cfg key rsp).1 =
      match NewDerivativesCacheFromConfig env.cache cfg, env.json.MarshalManifest rsp with
      | Except.ok _, Except.ok enc => some (key, enc)
      | _, _ => none := by
  unfold report_processing
  cases NewDerivativesCacheFromConfig env.cache cfg with
  | error err => rfl
  | ok dest_cache =>
    cases env.json.MarshalManifest rsp <;> rfl

/-- C8, as the code has it. With `opts.Report` set, `ProcessMany` spawns one report
goroutine per source, in input order, with key `filepath.Join(origin, opts.ReportName)`
and that source's manifest; the key is `origin + "/" + opts.ReportName` whenever both are
clean relative paths; a goroutine attempts the one write `Set(key, JSON(manifest))`
unless the cache construction or the encoding fails, and then attempts none. Without
`opts.Report` nothing is spawned and nothing is written. -/
theorem C8_report_writes (env : Env) (opts : ProcessOptions) (uris : List URI) :
    (opts.Report = true →
      (ProcessMany env opts uris).spawned =
        uris.map (fun u => (filepathJoin u.Origin opts.ReportName,
          (ParallelProcessURIWithInstructionSet
              ⟨env.lib, opts.Config, opts.Driver, opts.Processor, opts.Instructions, u⟩).1)) ∧
      (ProcessMany env opts uris).writes =
        uris.filterMap (fun u =>
          match NewDerivativesCacheFromConfig env.cache opts.Config,
            env.json.MarshalManifest
              (ParallelProcessURIWithInstructionSet
                  ⟨env.lib, opts.Config, opts.Driver, opts.Processor, opts.Instructions, u⟩).1 with
          | Except.ok _, Except.ok enc => some (filepathJoin u.Origin opts.ReportName, enc)
          | _, _ => none)) ∧
    (opts.Report = false →
      (ProcessMany env opts uris).spawned = [] ∧ (ProcessMany env opts uris).writes = []) ∧
    (∀ u ∈ uris, CleanRelative u.Origin → CleanRelative opts.ReportName →
      filepathJoin u.Origin opts.ReportName = u.Origin ++ "/" ++ opts.ReportName) := by
  have hf := ProcessMany_fields env opts uris
  have hs := (processLoop_spec env opts uris ⟨GoMap.empty, [], [], none⟩ rfl).2.2.1
  refine ⟨?_, ?_, fun u _ ha hb => filepathJoin_clean _ _ ha hb⟩
  · intro hr
    have hsp : (ProcessMany env opts uris).spawned =
        uris.map (fun u => (filepathJoin u.Origin opts.ReportName,
          (ParallelProcessURIWithInstructionSet
              ⟨env.lib, opts.Config, opts.Driver, opts.Processor, opts.Instructions, u⟩).1)) := by
      rw [hf.2.2.1, hs]
      simp [hr]
    refine ⟨hsp, ?_⟩
    rw [hf.2.2.2.1, ← hf.2.2.1, hsp, List.filterMap_map]
    congr 1
    funext u
    simp only [Function.comp, report_processing_write]
  · intro hr
    have hsp : (ProcessMany env opts uris).spawned = [] := by
      rw [hf.2.2.1, hs]
      simp [hr]
    refine ⟨hsp, ?_⟩
    rw [hf.2.2.2.1, ← hf.2.2.1, hsp]
    rfl

/-- C8 as claimed fails: with the report name `./process.json` the key of the write for
the source `avocado.png` is `avocado.png/process.json`, not the origin, a slash and the
report name. -/
theorem C8_key_is_cleaned :
    (ProcessMany exEnv exOptsDot [exURI]).writes.map Prod.fst =
        ["avocado.png/process.json"] ∧
    (ProcessMany exEnv exOptsDot [exURI]).writes.map Prod.fst ≠
        [exURI.Origin ++ "/" ++ exOptsDot.ReportName] := by
  decide

/-! ## The properties at concrete inputs -/

/-- C1 at a concrete call with one failing label, run by a concrete schedule. -/
theorem C1_manifest_entries_witness :
    Completes exCtx exSchedule ∧
    ∃ m uris dims, (exec exCtx (init exCtx) exSchedule).returned = some (m, none) ∧
      m "uris" = some (Value.uris uris) ∧ m "dimensions" = some (Value.dimensions dims) ∧
      ∀ label : Label,
        (∀ s, uris label = some s ↔ ∃ ds, Succeeds exCtx label s ds) ∧
        (∀ ds, dims label = some ds ↔ ∃ s, Succeeds exCtx label s ds) ∧
        (∀ s ds, Succeeds exCtx label s ds → uris label = some s ∧ dims label = some ds) ∧
        ((¬ ∃ s ds, Succeeds exCtx label s ds) → uris label = none ∧ dims label = none) :=
  ⟨by decide, C1_manifest_entries exCtx exSchedule (by decide)⟩

/-- C2 at a concrete call with the palette service enabled: the key is there. -/
theorem C2_palette_entry_witness :
    Completes exCtx exSchedule ∧
    ∃ m, (exec exCtx (init exCtx) exSchedule).returned = some (m, none) ∧
      (m "palette").isSome = true := by
  refine ⟨by decide, ?_⟩
  obtain ⟨m, h1, _, h3⟩ := C2_palette_entry exCtx exSchedule (by decide)
  exact ⟨m, h1, h3.2 ⟨by decide, _, _, rfl, rfl⟩⟩

/-- C3 at a concrete source of the `"idsecret"` kind, for the label `"o"`. -/
theorem C3_idsecret_target_options_witness :
    exIdCtx.u.Driver = "idsecret" ∧
    ("o", ⟨"full", "full", "0", "color", ""⟩) ∈ exIdCtx.instruction_set.entries ∧
    ∃ j r opts rest,
      exIdCtx.instruction_set.entries[j]? = some ("o", ⟨"full", "full", "0", "color", ""⟩) ∧
      taskRun exIdCtx (j + 1) = some r ∧
      r.calls = Call.Target opts :: rest ∧
      (∀ call ∈ rest, call.isTarget = false) ∧
      opts "label" = some ["o"] ∧
      opts "format" = some ["jpg"] ∧
      (opts "original" = some ["1"] ↔ "o" = "o") ∧
      (("o" : Label) ≠ "o" → opts "original" = none) ∧
      (∀ key, key ≠ "label" → key ≠ "format" → key ≠ "original" → opts key = none) :=
  ⟨by decide, by decide,
    C3_idsecret_target_options exIdCtx "o" ⟨"full", "full", "0", "color", ""⟩
      (by decide) (by decide)⟩

/-- C4 at a concrete plain source and at a concrete source of the `"idsecret"` kind. -/
theorem C4_effective_uri_witness :
    ("o", ⟨"full", "full", "0", "color", ""⟩) ∈ exCtx.instruction_set.entries ∧
    exCtx.u.Driver ≠ "idsecret" ∧
    (∃ r : TaskRun, (∀ call ∈ r.calls, call.isTarget = false) ∧
      ∃ rest, r.calls =
          Call.ProcessURIWithInstructions exCtx.u "o"
            (exCtx.lib.EnsureInstructions ⟨"full", "full", "0", "color", ""⟩) :: rest ∧
        ∀ call ∈ rest, call.isProcess = false) ∧
    exIdCtx.u.Driver = "idsecret" ∧
    (∃ (r : TaskRun) (pre rest : List Call), r.calls =
        pre ++ Call.ProcessURIWithInstructions
          ⟨"rewrite", "rewrite:///1234?target=1234_s_o.jpg",
            fun _ => Except.error "no target", "rewrite:///1234?target=1234_s_o.jpg"⟩ "o"
          (exIdCtx.lib.EnsureInstructions ⟨"full", "full", "0", "color", ""⟩) :: rest ∧
      (∀ call ∈ pre, call.isProcess = false) ∧
      (∀ call ∈ rest, call.isProcess = false)) := by
  refine ⟨by decide, by decide, ?_, by decide, ?_⟩
  · obtain ⟨_, r, _, _, h, _⟩ :=
      C4_effective_uri exCtx "o" ⟨"full", "full", "0", "color", ""⟩ (by decide)
    exact ⟨r, h (by decide)⟩
  · obtain ⟨_, r, _, _, _, h⟩ :=
      C4_effective_uri exIdCtx "o" ⟨"full", "full", "0", "color", ""⟩ (by decide)
    exact ⟨r, ((h (by decide)).2 "1234_s_o.jpg" rfl).2 _ rfl⟩

/-- C5 at a concrete call in which the goroutine of label `"b"` fails: the call
returns a nil error and the failure is in the log. -/
theorem C5_returns_nil_error_witness :
    Completes exCtx exSchedule ∧
    (∃ m uris dims, (exec exCtx (init exCtx) exSchedule).returned = some (m, none) ∧
      m "uris" = some (Value.uris uris) ∧
      m "dimensions" = some (Value.dimensions dims)) ∧
    ("b", ⟨"full", "!2048,1536", "0", "color", "png"⟩) ∈ exCtx.instruction_set.entries ∧
    "failed to process avocado.png (b) : boom" ∈ logged (exec exCtx (init exCtx) exSchedule) :=
  ⟨by decide, (C5_returns_nil_error exCtx).2.2.2.2.1 exSchedule (by decide), by decide,
    ((((C5_returns_nil_error exCtx).2.2.2.2.2.1 exSchedule (by decide)).2.2.1 "b"
      ⟨"full", "!2048,1536", "0", "color", "png"⟩ (by decide)).2.2.1 exURI "boom" rfl rfl)⟩

/-- C6 at a concrete call: three goroutines, three completion signals. -/
theorem C6_completion_signals_witness :
    Completes exCtx exSchedule ∧
    (exec exCtx (init exCtx) exSchedule).remaining = 0 ∧
    doneCount (exec exCtx (init exCtx) exSchedule) = exCtx.instruction_set.len + 1 ∧
    (∀ k r, taskRun exCtx k = some r →
      eventsOf (exec exCtx (init exCtx) exSchedule) k = errEvents k r ++ [Event.done k]) ∧
    ∀ ch, step? exCtx (exec exCtx (init exCtx) exSchedule) ch = none :=
  ⟨by decide, (C6_completion_signals exCtx exSchedule).2.2.2.2.2.2.2.2 (by decide)⟩

/-- C7 at a concrete call: the one error sent is logged once. -/
theorem C7_wait_loop_iterations_witness :
    Completes exCtx exSchedule ∧
    ∀ k r, taskRun exCtx k = some r →
      (eventsOf (exec exCtx (init exCtx) exSchedule) k).filterMap Event.msg? = r.err.toList :=
  ⟨by decide, (C7_wait_loop_iterations exCtx exSchedule).2.2.2.2.2 (by decide)⟩

/-- C8 at a concrete batch of two sources with the default report name. -/
theorem C8_report_writes_witness :
    exOpts.Report = true ∧ CleanRelative exURI.Origin ∧ CleanRelative exOpts.ReportName ∧
    (ProcessMany exEnv exOpts [exURI, exURI2]).spawned =
      [exURI, exURI2].map (fun u => (filepathJoin u.Origin exOpts.ReportName,
        (ParallelProcessURIWithInstructionSet
            ⟨exEnv.lib, exOpts.Config, exOpts.Driver, exOpts.Processor, exOpts.Instructions, u⟩).1)) ∧
    filepathJoin exURI.Origin exOpts.ReportName =
      exURI.Origin ++ "/" ++ exOpts.ReportName :=
  ⟨by decide, by decide, by decide,
    ((C8_report_writes exEnv exOpts [exURI, exURI2]).1 (by decide)).1,
    (C8_report_writes exEnv exOpts [exURI, exURI2]).2.2 exURI (by simp) (by decide)
      (by decide)⟩

/-- C10 at a concrete batch of two sources with distinct origins: each origin has the
manifest made from its own source with the options' processor and configuration. -/
theorem C10_batch_report_witness :
    ([exURI, exURI2].map URI.Origin).Nodup ∧
    (∃ m uris dims,
      (ProcessMany exEnv exOpts [exURI, exURI2]).results "avocado.png" = some m ∧
      m "uris" = some (Value.uris uris) ∧ m "dimensions" = some (Value.dimensions dims) ∧
      uris "o" = some "avocado.png/full/full/0/color.jpg" ∧ dims "o" = some [640, 480] ∧
      uris "b" = none ∧ (m "palette").isSome = true) ∧
    (∃ m uris,
      (ProcessMany exEnv exOpts [exURI, exURI2]).results "banana.png" = some m ∧
      m "uris" = some (Value.uris uris) ∧
      uris "o" = some "banana.png/full/full/0/color.jpg") := by
  have h := (C10_batch_report exEnv exOpts [exURI, exURI2]).2.2.2.1 (by decide)
  refine ⟨by decide, ?_, ?_⟩
  · exact ⟨_, finalUris ⟨exLib, exConfig, exDriver, exProcessor, exInstructions, exURI⟩,
      finalDimensions ⟨exLib, exConfig, exDriver, exProcessor, exInstructions, exURI⟩,
      h exURI (by simp), rfl, rfl, by decide, by decide, by decide, by decide⟩
  · exact ⟨_, finalUris ⟨exLib, exConfig, exDriver, exProcessor, exInstructions, exURI2⟩,
      h exURI2 (by simp), rfl, by decide⟩

end GoIIIF
